import Mathlib

/-!
# Shallow embedding of `framework/hijack_operation.c`

The hijack life cycle (prepare, enable, disable, disable_all) of the kernel hook
framework, as pure functions over an explicit machine state: byte memory, the
`all_hijack_targets` hash table and a trace of the calls made to collaborators.
Collaborators that live outside this file (symbol resolver, instruction check,
jump generator, hash function, byte writer, the stop-the-world barrier) are fields
of `Env` or are driven by an `Outcome` supplied by the caller of the model.
-/

namespace Hijack

/-! ## Memory -/

/-- Byte-addressed memory: the byte stored at every address. -/
abbrev Mem := Nat → Nat

/-- The `n` bytes found at `addr`, as `memcpy(buf, addr, n)` reads them. -/
def readBytes (m : Mem) (addr n : Nat) : List Nat :=
  (List.range n).map (fun i => m (addr + i))

/-- Memory after the bytes `bs` are stored from `addr` on, as `memcpy(addr, bs, len)` does. -/
def writeBytes (m : Mem) (addr : Nat) (bs : List Nat) : Mem :=
  fun a => if addr ≤ a then (bs.get? (a - addr)).getD (m a) else m a

/-! ## Data model -/

/-- The hook descriptor `struct sym_hook` (declared in `include/common_data.h`), with the
fields this file reads and writes. A null pointer is the address `0`. -/
structure sym_hook where
  target : Nat
  target_code : List Nat
  hook_dest : Nat
  hook_template_code_space : Nat
  template_return_addr : Nat
  enabled : Bool
deriving DecidableEq, Repr

/-- The format strings handed to `logerror` and `loginfo`, with their arguments. -/
inductive LogMsg where
  | short_than_hijack_size (target : Nat)
  | contains_unhookable (target : Nat)
  | has_been_prepared (target : Nat)
  | no_enough_memory (target : Nat)
  | has_been_hijacked (target : Nat)
  | not_been_prepared (target : Nat)
  | has_been_disabled (target : Nat)
  | remove_hijack_target (target : Nat)
  | all_disabled (removed : Bool)
deriving DecidableEq, Repr

/-- One entry of the trace: a call this file makes to something outside it. -/
inductive Event where
  | logerror (m : LogMsg)
  | loginfo (m : LogMsg)
  | kmalloc (ok : Bool)
  | kfree (sa : sym_hook)
  | fill_hook_template_code_space (space : Nat) (code : List Nat) (return_addr : Nat)
  | stop_machine (dest : Nat) (source : List Nat)
  | stack_activeness_safety_check (dest : Nat)
  | hook_write_range (dest : Nat) (source : List Nat)
  | msleep (ms : Nat)
deriving DecidableEq, Repr

/-- What one `stop_machine(do_hijack_target, ...)` call meets: `pause` is the failure code
of the barrier itself (`0` when every other unit was paused and the callback ran),
`active` the value of `stack_activeness_safety_check`, `write` the value of
`hook_write_range`. -/
structure Outcome where
  pause : Int
  active : Int
  write : Int
deriving DecidableEq, Repr

/-- The outcome of a patch in which the barrier, the activeness check and the write all
report success. -/
def Outcome.ok (o : Outcome) : Prop := o.pause = 0 ∧ o.active = 0 ∧ o.write = 0

instance (o : Outcome) : Decidable o.ok := by
  unfold Outcome.ok; exact inferInstance

/-- Constants and collaborators the file takes from its header and from other files. -/
structure Env where
  /-- Number of leading bytes of a target that are saved and overwritten. -/
  HIJACK_SIZE : Nat
  /-- The value of `sizeof(void *)`. -/
  PTR_SIZE : Nat
  /-- The value of `DEFAULT_HASH_BUCKET_BITS`: the table has `2 ^ HASH_BITS` buckets. -/
  HASH_BITS : Nat
  /-- The pointer hash `jhash_pointer`. -/
  jhash_pointer : Nat → Nat
  /-- The bucket selector `hash_min(key, HASH_BITS(all_hijack_targets))`. -/
  hash_min : Nat → Nat
  /-- The resolver behind `get_symbol_pos_addr`: position, symbol size, offset in symbol. -/
  get_symbol_pos : Nat → Nat × Nat × Nat
  /-- The instruction check `check_target_can_hijack`, which reads the code at the target. -/
  check_target_can_hijack : Mem → Nat → Bool
  /-- The byte sequence `fill_long_jmp` stores for a jump to the given address. -/
  long_jmp : Nat → List Nat
  /-- Memory left behind by a `hook_write_range` call that reports failure. -/
  failed_write : Mem → Nat → List Nat → Mem
  /-- The text `sprint_symbol_no_offset` prints for an address. -/
  sprint_symbol_no_offset : Nat → String

/-- The machine state: memory, the hash table `all_hijack_targets` (bucket index to
chain, head first) and the trace of collaborator calls, oldest first. -/
structure State where
  mem : Mem
  all_hijack_targets : Nat → List sym_hook
  trace : List Event

/-- Append one event to the trace. -/
def State.log (s : State) (e : Event) : State :=
  { s with trace := s.trace ++ [e] }

/-! ## Hash table primitives -/

/-- Number of buckets of `all_hijack_targets`. -/
def HASH_SIZE (env : Env) : Nat := 2 ^ env.HASH_BITS

/-- Bucket a target lives in: `hash_min(jhash_pointer(target), HASH_BITS)`. The selector
yields a `HASH_BITS`-bit index; the reduction modulo the table size records that. -/
def bucket_of (env : Env) (target : Nat) : Nat :=
  env.hash_min (env.jhash_pointer target) % HASH_SIZE env

/-- The loop `hash_for_each_possible` with `if (sa->target == target)`: the first node of
the chain whose target matches. -/
def hash_find (target : Nat) : List sym_hook → Option sym_hook
  | [] => none
  | sa :: rest => if sa.target = target then some sa else hash_find target rest

/-- Store `f sa` into the first node `sa` of the chain whose target matches. -/
def chain_modify (target : Nat) (f : sym_hook → sym_hook) : List sym_hook → List sym_hook
  | [] => []
  | sa :: rest =>
    if sa.target = target then f sa :: rest else sa :: chain_modify target f rest

/-- The chain after `hash_del` of the first node whose target matches. -/
def chain_del (target : Nat) : List sym_hook → List sym_hook
  | [] => []
  | sa :: rest => if sa.target = target then rest else sa :: chain_del target rest

/-- Replace one bucket of the table. -/
def set_bucket (t : Nat → List sym_hook) (b : Nat) (chain : List sym_hook) :
    Nat → List sym_hook :=
  fun i => if i = b then chain else t i

/-- The macro `hash_add`: the node becomes the head of its bucket. -/
def hash_add (env : Env) (t : Nat → List sym_hook) (sa : sym_hook) : Nat → List sym_hook :=
  set_bucket t (bucket_of env sa.target) (sa :: t (bucket_of env sa.target))

/-- The traversal `hash_for_each`: every bucket in index order, each chain head first. -/
def hash_for_each (env : Env) (t : Nat → List sym_hook) : List sym_hook :=
  (List.range (HASH_SIZE env)).flatMap t

/-- The table with no node. -/
def empty_table : Nat → List sym_hook := fun _ => []

/-! ## The patch engine -/

/-- The jump generator `fill_long_jmp` on a local buffer: the jump sequence overwrites
the start of the buffer, the rest of the buffer is kept. The result has the size of the
buffer: bytes of the sequence that would fall behind its end are not part of it. -/
def fill_long_jmp (env : Env) (buf : List Nat) (dest : Nat) : List Nat :=
  (env.long_jmp dest ++ buf.drop (env.long_jmp dest).length).take buf.length

/-- The local array `source_code` of `hijack_target_enable` once `fill_long_jmp` has run:
`HIJACK_SIZE` zero bytes with the jump to `hook_dest` stored over them. -/
def source_code (env : Env) (hook_dest : Nat) : List Nat :=
  fill_long_jmp env (List.replicate env.HIJACK_SIZE 0) hook_dest

/-- The function `fill_hook_template_code_space`: the saved code is copied to the
trampoline region and a jump to `return_addr` is stored right behind it. -/
def fill_hook_template_code_space (env : Env) (s : State)
    (space : Nat) (target_code : List Nat) (return_addr : Nat) : State :=
  let m1 := writeBytes s.mem space (target_code.take env.HIJACK_SIZE)
  let m2 := writeBytes m1 (space + env.HIJACK_SIZE) (env.long_jmp return_addr)
  { s with mem := m2,
           trace := s.trace ++ [Event.fill_hook_template_code_space space target_code
                                  return_addr] }

/-- Modelled from the spec: the byte writer `hook_write_range`, which lives in another
file. On success the complete `HIJACK_SIZE` bytes of `source` stand at `dest`; what a
failed call leaves behind is the field `failed_write` of the environment. -/
def hook_write_range (env : Env) (o : Outcome) (s : State) (dest : Nat)
    (source : List Nat) : Int × State :=
  let s1 := s.log (Event.hook_write_range dest source)
  if o.write = 0 then
    (0, { s1 with mem := writeBytes s1.mem dest (source.take env.HIJACK_SIZE) })
  else
    (o.write, { s1 with mem := env.failed_write s1.mem dest source })

/-- The barrier callback `do_hijack_target`. -/
def do_hijack_target (env : Env) (o : Outcome) (s : State) (dest : Nat)
    (source : List Nat) : Int × State :=
  let ret := o.active
  let s1 := s.log (Event.stack_activeness_safety_check dest)
  if ret = 0 then hook_write_range env o s1 dest source else (ret, s1)

/-- Modelled from the spec: the barrier `stop_machine`, a kernel primitive. Either it
cannot pause the other units and returns its own failure code without running the
callback, or it runs the callback once and returns what the callback returns. -/
def stop_machine (env : Env) (o : Outcome) (s : State) (dest : Nat)
    (source : List Nat) : Int × State :=
  let s1 := s.log (Event.stop_machine dest source)
  if o.pause = 0 then do_hijack_target env o s1 dest source else (o.pause, s1)

/-! ## Validation and registration -/

/-- The function `check_function_length_enough`. -/
def check_function_length_enough (env : Env) (target : Nat) : Bool :=
  let pos := (env.get_symbol_pos target).1
  let symbolsize := (env.get_symbol_pos target).2.1
  let offset := (env.get_symbol_pos target).2.2
  if pos ≠ 0 ∧ offset = 0 ∧ env.HIJACK_SIZE ≤ symbolsize then true else false

/-- The address `HIJACK_SIZE - sizeof(void *) + target`, computed in machine words. -/
def template_return_addr (env : Env) (target : Nat) : Nat :=
  (env.HIJACK_SIZE + 2 ^ (8 * env.PTR_SIZE) - env.PTR_SIZE % 2 ^ (8 * env.PTR_SIZE) + target)
    % 2 ^ (8 * env.PTR_SIZE)

/-- The descriptor `hijack_target_prepare` fills in before it inserts it. -/
def new_sym_hook (env : Env) (m : Mem) (target hook_dest space : Nat) : sym_hook :=
  { target := target,
    target_code := readBytes m target env.HIJACK_SIZE,
    hook_dest := hook_dest,
    hook_template_code_space := space,
    template_return_addr := template_return_addr env target,
    enabled := false }

/-- The function `hijack_target_prepare`; `kmalloc_ok` tells whether the allocation
succeeds. -/
def hijack_target_prepare (env : Env) (kmalloc_ok : Bool) (s : State)
    (target hook_dest space : Nat) : Int × State :=
  if check_function_length_enough env target = false then
    (-1, s.log (Event.logerror (LogMsg.short_than_hijack_size target)))
  else if space ≠ 0 ∧ env.check_target_can_hijack s.mem target = false then
    (-1, s.log (Event.logerror (LogMsg.contains_unhookable target)))
  else if (hash_find target (s.all_hijack_targets (bucket_of env target))).isSome then
    (-1, s.log (Event.logerror (LogMsg.has_been_prepared target)))
  else
    let s1 := s.log (Event.kmalloc kmalloc_ok)
    if kmalloc_ok = false then
      (-1, s1.log (Event.logerror (LogMsg.no_enough_memory target)))
    else
      let sa := new_sym_hook env s1.mem target hook_dest space
      (0, { s1 with all_hijack_targets := hash_add env s1.all_hijack_targets sa })

/-! ## Activation and deactivation -/

/-- The assignment `sa->enabled = v` on the node found for `target`. -/
def set_enabled (env : Env) (s : State) (target : Nat) (v : Bool) : State :=
  let b := bucket_of env target
  let chain := chain_modify target (fun x => { x with enabled := v }) (s.all_hijack_targets b)
  { s with all_hijack_targets := set_bucket s.all_hijack_targets b chain }

/-- The function `hijack_target_enable`; `o` is what the patch attempt meets, if one is
made. -/
def hijack_target_enable (env : Env) (o : Outcome) (s : State) (target : Nat) :
    Int × State :=
  match hash_find target (s.all_hijack_targets (bucket_of env target)) with
  | none => (-1, s.log (Event.loginfo (LogMsg.not_been_prepared target)))
  | some sa =>
    if sa.enabled = false then
      let s1 :=
        if sa.hook_template_code_space ≠ 0 then
          fill_hook_template_code_space env s sa.hook_template_code_space
            sa.target_code sa.template_return_addr
        else s
      let r := stop_machine env o s1 target (source_code env sa.hook_dest)
      if r.1 = 0 then
        (r.1, set_enabled env r.2 target true)
      else r
    else
      (0, s.log (Event.loginfo (LogMsg.has_been_hijacked sa.target)))

/-- The removal step of `hijack_target_disable`: `hash_del` and `kfree` when
`need_remove` is set and `ret` is zero. -/
def remove_if_needed (env : Env) (need_remove : Bool) (ret : Int) (s : State)
    (sa : sym_hook) (target : Nat) : State :=
  if need_remove = true ∧ ret = 0 then
    let s1 := s.log (Event.loginfo (LogMsg.remove_hijack_target target))
    let b := bucket_of env target
    let t := set_bucket s1.all_hijack_targets b (chain_del target (s1.all_hijack_targets b))
    { s1 with all_hijack_targets := t, trace := s1.trace ++ [Event.kfree sa] }
  else s

/-- The function `hijack_target_disable`. -/
def hijack_target_disable (env : Env) (o : Outcome) (s : State) (target : Nat)
    (need_remove : Bool) : Int × State :=
  match hash_find target (s.all_hijack_targets (bucket_of env target)) with
  | none => (-1, s.log (Event.loginfo (LogMsg.not_been_prepared target)))
  | some sa =>
    if sa.enabled = true then
      let r := stop_machine env o s target sa.target_code
      if r.1 = 0 then
        let s2 := set_enabled env r.2 target false
        (r.1, remove_if_needed env need_remove r.1 s2 { sa with enabled := false } target)
      else
        (r.1, remove_if_needed env need_remove r.1 r.2 sa target)
    else
      let s1 := s.log (Event.loginfo (LogMsg.has_been_disabled sa.target))
      (0, remove_if_needed env need_remove 0 s1 sa target)

/-! ## Bulk teardown -/

/-- The body of the `hash_for_each_safe` loop of `hijack_target_disable_all` over one
chain. The loop carries the state, the number `k` of patch attempts made so far (the
attempt number `k` meets `sched k`) and the flag `retry`; it returns the chain it leaves
behind. -/
def disable_all_chain (env : Env) (need_remove : Bool) (sched : Nat → Outcome) :
    List sym_hook → State × Nat × Bool → List sym_hook × (State × Nat × Bool)
  | [], c => ([], c)
  | sa :: rest, (s, k, retry) =>
    if sa.enabled = true then
      let r := stop_machine env (sched k) s sa.target sa.target_code
      if r.1 ≠ 0 then
        let out := disable_all_chain env need_remove sched rest (r.2, k + 1, true)
        (sa :: out.1, out.2)
      else if need_remove = true then
        disable_all_chain env need_remove sched rest
          (r.2.log (Event.kfree { sa with enabled := false }), k + 1, retry)
      else
        let out := disable_all_chain env need_remove sched rest (r.2, k + 1, retry)
        ({ sa with enabled := false } :: out.1, out.2)
    else if need_remove = true then
      disable_all_chain env need_remove sched rest (s.log (Event.kfree sa), k, retry)
    else
      let out := disable_all_chain env need_remove sched rest (s, k, retry)
      (sa :: out.1, out.2)

/-- One bucket of a pass: the chain of bucket `b` is walked and stored back. -/
def disable_all_bucket (env : Env) (need_remove : Bool) (sched : Nat → Outcome)
    (c : State × Nat × Bool) (b : Nat) : State × Nat × Bool :=
  let out := disable_all_chain env need_remove sched (c.1.all_hijack_targets b) c
  let t := set_bucket out.2.1.all_hijack_targets b out.1
  ({ out.2.1 with all_hijack_targets := t }, out.2.2)

/-- One pass of the `do ... while` loop: every bucket in index order, starting with
`retry = false`. -/
def disable_all_pass (env : Env) (need_remove : Bool) (sched : Nat → Outcome)
    (s : State) (k : Nat) : State × Nat × Bool :=
  (List.range (HASH_SIZE env)).foldl (disable_all_bucket env need_remove sched) (s, k, false)

/-- The function `hijack_target_disable_all`, with at most `fuel` passes: `none` when
the passes allowed are used up and the last one still asked for a retry. `k` counts
the patch attempts made before this pass. -/
def hijack_target_disable_all (env : Env) (need_remove : Bool) (sched : Nat → Outcome) :
    Nat → Nat → State → Option State
  | 0, _, _ => none
  | fuel + 1, k, s =>
    let out := disable_all_pass env need_remove sched s k
    if out.2.2 = true then
      hijack_target_disable_all env need_remove sched fuel out.2.1
        (out.1.log (Event.msleep 1000))
    else
      some (out.1.log (Event.loginfo (LogMsg.all_disabled need_remove)))

/-! ## Diagnostics -/

/-- The function `init_hijack_operation`; `found` tells whether `find_func` located
`get_symbol_pos`. -/
def init_hijack_operation (found : Bool) : Int :=
  if found then 0 else -14

/-! ## Reachable states and the registry invariant -/

/-- The nodes of the registry, in traversal order. -/
def registry (env : Env) (s : State) : List sym_hook :=
  hash_for_each env s.all_hijack_targets

/-- The target has a descriptor in the registry. -/
def registered (env : Env) (s : State) (target : Nat) : Prop :=
  ∃ sa ∈ registry env s, sa.target = target

/-- States reached from an empty registry by sequential calls of the four public
operations, with any arguments and any outcome of allocation and patching. -/
inductive Reachable (env : Env) : State → Prop where
  | init (m : Mem) : Reachable env { mem := m, all_hijack_targets := empty_table, trace := [] }
  | prepare {s : State} (kmalloc_ok : Bool) (target hook_dest space : Nat) :
      Reachable env s →
      Reachable env (hijack_target_prepare env kmalloc_ok s target hook_dest space).2
  | enable {s : State} (o : Outcome) (target : Nat) :
      Reachable env s → Reachable env (hijack_target_enable env o s target).2
  | disable {s : State} (o : Outcome) (target : Nat) (need_remove : Bool) :
      Reachable env s → Reachable env (hijack_target_disable env o s target need_remove).2
  | disable_all {s s' : State} (need_remove : Bool) (sched : Nat → Outcome) (fuel : Nat) :
      Reachable env s →
      hijack_target_disable_all env need_remove sched fuel 0 s = some s' →
      Reachable env s'

/-- The node with its `enabled` flag cleared: what a node keeps through enable and
disable. -/
def forget_enabled (sa : sym_hook) : sym_hook := { sa with enabled := false }

/-- The chain `c1` comes from the chain `c` by unlinking nodes and by assignments to
`enabled` only. -/
def ChainSub (c1 c : List sym_hook) : Prop :=
  (c1.map forget_enabled).Sublist (c.map forget_enabled)

/-- The invariant of the table: every node sits in the bucket of its target, holds
`HIJACK_SIZE` saved bytes, a target that passes `check_function_length_enough` and the
return address computed from its target, and no chain holds two nodes for one target. -/
def TableWF (env : Env) (t : Nat → List sym_hook) : Prop :=
  ∀ b, (∀ sa ∈ t b,
          bucket_of env sa.target = b ∧ sa.target_code.length = env.HIJACK_SIZE ∧
          check_function_length_enough env sa.target = true ∧
          sa.template_return_addr = template_return_addr env sa.target) ∧
       ((t b).map sym_hook.target).Nodup

/-- The registry invariant on a state. -/
def WF (env : Env) (s : State) : Prop := TableWF env s.all_hijack_targets

/-- The state in which `hijack_target_enable` starts its patch attempt on the disabled
node `sa`: the trampoline region is filled first when the node has one. -/
def enable_pre (env : Env) (s : State) (sa : sym_hook) : State :=
  if sa.hook_template_code_space ≠ 0 then
    fill_hook_template_code_space env s sa.hook_template_code_space
      sa.target_code sa.template_return_addr
  else s

/-! ## A concrete machine for evaluation -/

/-- A small machine: four-byte patches, four buckets, three known symbols (`100`: start
of a 32-byte function, `200`: start of a 2-byte function, `300`: a 32-byte function
that also covers `304`). -/
def env0 : Env :=
  { HIJACK_SIZE := 4,
    PTR_SIZE := 8,
    HASH_BITS := 2,
    jhash_pointer := fun p => p,
    hash_min := fun h => h,
    get_symbol_pos := fun a =>
      if a = 100 then (100, 32, 0)
      else if a = 200 then (200, 2, 0)
      else if a = 300 then (300, 32, 0)
      else if a = 304 then (300, 32, 4)
      else (0, 0, 0),
    check_target_can_hijack := fun _ _ => true,
    long_jmp := fun d => [233, d % 256],
    failed_write := fun m _ _ => m,
    sprint_symbol_no_offset := fun a => toString a }

/-- A memory whose byte at address `a` is `a % 7`. -/
def mem0 : Mem := fun a => a % 7

/-- The machine state with memory `mem0` and nothing registered. -/
def s0 : State := { mem := mem0, all_hijack_targets := empty_table, trace := [] }

/-- An outcome in which barrier, check and write succeed. -/
def ok0 : Outcome := { pause := 0, active := 0, write := 0 }

/-- An outcome in which the activeness check reports the problem `-1`. -/
def busy0 : Outcome := { pause := 0, active := -1, write := 0 }

/-- The descriptor `hijack_target_prepare` builds on `s0` for the target `100` with hook
`900` and no trampoline region. -/
def sa100 : sym_hook :=
  { target := 100, target_code := [2, 3, 4, 5], hook_dest := 900,
    hook_template_code_space := 0, template_return_addr := 96, enabled := false }

/-- The state `s0` after a successful prepare of the target `100`. -/
def s1 : State := (hijack_target_prepare env0 true s0 100 900 0).2

/-- The state `s1` after a successful enable of the target `100`. -/
def s2 : State := (hijack_target_enable env0 ok0 s1 100).2

/-- A machine like `env0` with sixteen-byte patches, twice the size of a pointer. -/
def env16 : Env := { env0 with HIJACK_SIZE := 16 }

/-- The state `s0` after the prepare of the target `100` on `env16`, with a trampoline
region at `500`. -/
def s16 : State := (hijack_target_prepare env16 true s0 100 900 500).2

/-- The byte ranges `[a, a + n)` and `[b, b + m)` share no address. -/
def apart (a n b m : Nat) : Prop := a + n ≤ b ∨ b + m ≤ a

instance (a n b m : Nat) : Decidable (apart a n b m) := by
  unfold apart; exact inferInstance

/-- Modelled from the spec: the contract of the byte writer `hook_write_range`, which is
not part of this file: a call that reports failure has written nothing ("partial writes
are never permitted"). -/
def WriterAtomic (env : Env) : Prop :=
  ∀ (m : Mem) (dest : Nat) (source : List Nat), env.failed_write m dest source = m

/-- Modelled from the spec: the weaker contract of the byte writer `hook_write_range`
that a call that reports failure has touched no byte outside the `HIJACK_SIZE` bytes at
its destination. -/
def WriterContained (env : Env) : Prop :=
  ∀ (m : Mem) (dest : Nat) (source : List Nat) (a : Nat),
    a < dest ∨ dest + env.HIJACK_SIZE ≤ a → env.failed_write m dest source a = m a

/-- Whether a trace entry is a patch attempt, a call of `stop_machine`. -/
def is_patch_attempt : Event → Bool
  | Event.stop_machine _ _ => true
  | _ => false

/-- The number of patch attempts in a trace. -/
def patch_attempts (tr : List Event) : Nat := tr.countP is_patch_attempt

/-- The state `s0` after the prepare of the target `100` on `env0` with a trampoline
region at `101`, which overlaps the target. -/
def s1t : State := (hijack_target_prepare env0 true s0 100 900 101).2

/-! ## Two callers of prepare -/

/-- The first critical section of `hijack_target_prepare` (lines 77 to 101): the two
validations and the duplicate check made under the read lock. The value is the failure
the call ends with, or `none` when the call goes on to the allocation. -/
def prepare_check (env : Env) (s : State) (target space : Nat) : Option (Int × State) :=
  if check_function_length_enough env target = false then
    some (-1, s.log (Event.logerror (LogMsg.short_than_hijack_size target)))
  else if space ≠ 0 ∧ env.check_target_can_hijack s.mem target = false then
    some (-1, s.log (Event.logerror (LogMsg.contains_unhookable target)))
  else if (hash_find target (s.all_hijack_targets (bucket_of env target))).isSome then
    some (-1, s.log (Event.logerror (LogMsg.has_been_prepared target)))
  else none

/-- The rest of `hijack_target_prepare` (lines 103 to 120): the allocation, the filling
of the node and `hash_add` under the write lock. -/
def prepare_insert (env : Env) (kmalloc_ok : Bool) (s : State)
    (target hook_dest space : Nat) : Int × State :=
  let s1 := s.log (Event.kmalloc kmalloc_ok)
  if kmalloc_ok = false then
    (-1, s1.log (Event.logerror (LogMsg.no_enough_memory target)))
  else
    let sa := new_sym_hook env s1.mem target hook_dest space
    (0, { s1 with all_hijack_targets := hash_add env s1.all_hijack_targets sa })

/-- The arguments of one call of `hijack_target_prepare` and the fate of its allocation. -/
structure Caller where
  target : Nat
  hook_dest : Nat
  space : Nat
  kmalloc_ok : Bool

/-- Where a caller of `hijack_target_prepare` stands: before the read-locked check,
between the check and the write-locked insertion, or returned with a value. -/
inductive Phase where
  | start
  | checked
  | done (ret : Int)
deriving DecidableEq, Repr

/-- One lock-protected step of a caller on the shared state. -/
def caller_step (env : Env) (c : Caller) (p : Phase) (s : State) : Phase × State :=
  match p with
  | Phase.start =>
    match prepare_check env s c.target c.space with
    | some r => (Phase.done r.1, r.2)
    | none => (Phase.checked, s)
  | Phase.checked =>
    let r := prepare_insert env c.kmalloc_ok s c.target c.hook_dest c.space
    (Phase.done r.1, r.2)
  | Phase.done ret => (Phase.done ret, s)

/-- Two callers `a` and `b` on one shared state under an interleaving: `true` lets `a`
take its next step, `false` lets `b` take its next step. -/
def run2 (env : Env) (a b : Caller) : List Bool → Phase × Phase × State → Phase × Phase × State
  | [], c => c
  | true :: rest, (pa, pb, s) =>
    run2 env a b rest ((caller_step env a pa s).1, pb, (caller_step env a pa s).2)
  | false :: rest, (pa, pb, s) =>
    run2 env a b rest (pa, (caller_step env b pb s).1, (caller_step env b pb s).2)

/-- A call `hijack_target_prepare(100, 900, NULL)` whose allocation succeeds. -/
def callerA : Caller := { target := 100, hook_dest := 900, space := 0, kmalloc_ok := true }

/-- A call `hijack_target_prepare(100, 901, NULL)` whose allocation succeeds. -/
def callerB : Caller := { target := 100, hook_dest := 901, space := 0, kmalloc_ok := true }

/-- Modelled from the spec: the contract of the symbol resolver, a kernel service that is
not part of this file: routines do not overlap, so two different addresses that each
pass `check_function_length_enough` (start of a routine of at least `HIJACK_SIZE` bytes)
are at least `HIJACK_SIZE` bytes apart. -/
def NoOverlap (env : Env) : Prop :=
  ∀ t u : Nat, check_function_length_enough env t = true →
    check_function_length_enough env u = true → t ≠ u →
    apart t env.HIJACK_SIZE u env.HIJACK_SIZE

/-- Both callers have passed their checks on `s0`; `callerA` inserts its descriptor and
the target `100` is enabled. -/
def sdupA : State :=
  (hijack_target_enable env0 ok0 (prepare_insert env0 true s0 100 900 0).2 100).2

/-- After `sdupA`, `callerB` inserts its descriptor, which saves the patched bytes, and
the target `100` is enabled again: two enabled descriptors for `100`. -/
def sdupE : State :=
  (hijack_target_enable env0 ok0 (prepare_insert env0 true sdupA 100 901 0).2 100).2

/-- A machine like `env0` whose instruction check rejects every target. -/
def env_rej : Env := { env0 with check_target_can_hijack := fun _ _ => false }

/-! ## Trampoline regions that stay clear of the targets -/

/-- The region `fill_hook_template_code_space` writes for the trampoline at `space` with
return address `return_addr` (the saved code followed by the jump back) shares no address
with the `HIJACK_SIZE` bytes at any address that passes `check_function_length_enough`;
nothing is asked when there is no trampoline region (`space = 0`). -/
def TrampClear (env : Env) (space return_addr : Nat) : Prop :=
  space = 0 ∨ ∀ u : Nat, check_function_length_enough env u = true →
    apart space (env.HIJACK_SIZE + (env.long_jmp return_addr).length) u env.HIJACK_SIZE

/-- States reached from an empty registry by sequential calls of the four public
operations in which every trampoline region passed to `hijack_target_prepare` stays clear
of the patched bytes of every eligible target. -/
inductive ReachableClear (env : Env) : State → Prop where
  | init (m : Mem) :
      ReachableClear env { mem := m, all_hijack_targets := empty_table, trace := [] }
  | prepare {s : State} (kmalloc_ok : Bool) (target hook_dest space : Nat) :
      ReachableClear env s → TrampClear env space (template_return_addr env target) →
      ReachableClear env (hijack_target_prepare env kmalloc_ok s target hook_dest space).2
  | enable {s : State} (o : Outcome) (target : Nat) :
      ReachableClear env s → ReachableClear env (hijack_target_enable env o s target).2
  | disable {s : State} (o : Outcome) (target : Nat) (need_remove : Bool) :
      ReachableClear env s →
      ReachableClear env (hijack_target_disable env o s target need_remove).2
  | disable_all {s s' : State} (need_remove : Bool) (sched : Nat → Outcome) (fuel : Nat) :
      ReachableClear env s →
      hijack_target_disable_all env need_remove sched fuel 0 s = some s' →
      ReachableClear env s'

/-- Every registered descriptor has a trampoline region clear of the targets, and the
patched bytes stand at the target of every descriptor whose flag is true. -/
def Installed (env : Env) (s : State) : Prop :=
  ∀ sa ∈ registry env s,
    TrampClear env sa.hook_template_code_space sa.template_return_addr ∧
    (sa.enabled = true →
      readBytes s.mem sa.target env.HIJACK_SIZE = source_code env sa.hook_dest)

/-- The state `s2`, where the target `100` is enabled, after a successful prepare of the
target `300` with a trampoline region at `98` and a successful enable of `300`. -/
def s2t : State :=
  (hijack_target_enable env0 ok0 (hijack_target_prepare env0 true s2 300 901 98).2 300).2

/-- The state `s2`, where the target `100` is enabled, after a successful prepare of the
target `300` with a trampoline region at `500` and a successful enable of `300`. -/
def s2c : State :=
  (hijack_target_enable env0 ok0 (hijack_target_prepare env0 true s2 300 901 500).2 300).2

/-! ## Lemmas on memory and chains -/

theorem readBytes_length (m : Mem) (addr n : Nat) : (readBytes m addr n).length = n := by
  simp [readBytes]

theorem writeBytes_at (m : Mem) (addr : Nat) (bs : List Nat) (i : Nat) (h : i < bs.length) :
    writeBytes m addr bs (addr + i) = bs.get ⟨i, h⟩ := by
  simp [writeBytes, List.getElem?_eq_getElem h]

theorem writeBytes_outside (m : Mem) (addr : Nat) (bs : List Nat) (a : Nat)
    (h : a < addr ∨ addr + bs.length ≤ a) : writeBytes m addr bs a = m a := by
  unfold writeBytes
  split
  · rename_i hle
    have hge : bs.length ≤ a - addr := by omega
    simp [List.getElem?_eq_none hge]
  · rfl

theorem readBytes_writeBytes (m : Mem) (addr : Nat) (bs : List Nat) :
    readBytes (writeBytes m addr bs) addr bs.length = bs := by
  apply List.ext_getElem
  · simp [readBytes]
  · intro i h1 h2
    simp only [readBytes, List.getElem_map, List.getElem_range]
    exact writeBytes_at m addr bs i h2

theorem readBytes_writeBytes_len (m : Mem) (addr : Nat) (bs : List Nat) (n : Nat)
    (h : bs.length = n) : readBytes (writeBytes m addr bs) addr n = bs := by
  subst h
  exact readBytes_writeBytes m addr bs

theorem hash_find_none {target : Nat} {chain : List sym_hook} :
    hash_find target chain = none ↔ ∀ sa ∈ chain, sa.target ≠ target := by
  induction chain with
  | nil => simp [hash_find]
  | cons x rest ih =>
    by_cases hx : x.target = target
    · simp [hash_find, hx]
    · simp [hash_find, hx, ih]

theorem hash_find_some {target : Nat} {chain : List sym_hook} {sa : sym_hook}
    (h : hash_find target chain = some sa) : sa ∈ chain ∧ sa.target = target := by
  induction chain with
  | nil => simp [hash_find] at h
  | cons x rest ih =>
    by_cases hx : x.target = target
    · simp [hash_find, hx] at h
      subst h
      exact ⟨List.mem_cons_self _ _, hx⟩
    · simp [hash_find, hx] at h
      exact ⟨List.mem_cons_of_mem _ (ih h).1, (ih h).2⟩

theorem hash_find_chain_modify {target : Nat} {chain : List sym_hook} {sa : sym_hook}
    (f : sym_hook → sym_hook) (hf : ∀ x, (f x).target = x.target)
    (h : hash_find target chain = some sa) :
    hash_find target (chain_modify target f chain) = some (f sa) := by
  induction chain with
  | nil => simp [hash_find] at h
  | cons x rest ih =>
    by_cases hx : x.target = target
    · simp [hash_find, hx] at h
      subst h
      simp [chain_modify, hash_find, hx, hf]
    · simp [hash_find, hx] at h
      simp [chain_modify, hash_find, hx, ih h]

theorem bucket_of_lt (env : Env) (target : Nat) : bucket_of env target < HASH_SIZE env := by
  unfold bucket_of HASH_SIZE
  exact Nat.mod_lt _ (Nat.pos_pow_of_pos _ (by decide))

theorem mem_registry {env : Env} {s : State} {sa : sym_hook} :
    sa ∈ registry env s ↔ ∃ b, b < HASH_SIZE env ∧ sa ∈ s.all_hijack_targets b := by
  simp [registry, hash_for_each, List.mem_flatMap]

theorem hash_find_of_not_registered {env : Env} {s : State} {target : Nat}
    (h : ¬ registered env s target) :
    hash_find target (s.all_hijack_targets (bucket_of env target)) = none := by
  rw [hash_find_none]
  intro sa hsa heq
  exact h ⟨sa, mem_registry.2 ⟨_, bucket_of_lt env target, hsa⟩, heq⟩

/-! ## The patch engine: `do_hijack_target` -/

/-- C3: in `do_hijack_target`, when the activeness check reports a problem the function
returns that non-zero value, the trace gains the check and nothing else (no call of
`hook_write_range`), and memory and registry are unchanged; when the check passes the
result is the result of one `hook_write_range(dest, source)` call, which is the only
write in the trace. -/
theorem C3_do_hijack_target (env : Env) (o : Outcome) (s : State) (dest : Nat)
    (source : List Nat) :
    (o.active ≠ 0 →
      (do_hijack_target env o s dest source).1 = o.active ∧
      (do_hijack_target env o s dest source).1 ≠ 0 ∧
      (do_hijack_target env o s dest source).2.mem = s.mem ∧
      (do_hijack_target env o s dest source).2.all_hijack_targets = s.all_hijack_targets ∧
      (do_hijack_target env o s dest source).2.trace =
        s.trace ++ [Event.stack_activeness_safety_check dest]) ∧
    (o.active = 0 →
      do_hijack_target env o s dest source =
        hook_write_range env o (s.log (Event.stack_activeness_safety_check dest)) dest source ∧
      (do_hijack_target env o s dest source).1 = o.write ∧
      (do_hijack_target env o s dest source).2.trace =
        s.trace ++ [Event.stack_activeness_safety_check dest,
                    Event.hook_write_range dest source]) := by
  constructor
  · intro h
    simp [do_hijack_target, h, State.log]
  · intro h
    by_cases hw : o.write = 0
    · simp [do_hijack_target, hook_write_range, h, hw, State.log]
    · simp [do_hijack_target, hook_write_range, h, hw, State.log]

/-- C3, evaluated: with a busy target the call returns `-1` and leaves `mem0` alone; with
a successful outcome it returns the value of the write. -/
theorem C3_do_hijack_target_witness :
    ((do_hijack_target env0 busy0 s0 100 [1, 2, 3, 4]).1 = -1 ∧
      (do_hijack_target env0 busy0 s0 100 [1, 2, 3, 4]).2.mem = s0.mem) ∧
    (do_hijack_target env0 ok0 s0 100 [1, 2, 3, 4]).1 = 0 :=
  ⟨⟨((C3_do_hijack_target env0 busy0 s0 100 [1, 2, 3, 4]).1 (by decide)).1,
    ((C3_do_hijack_target env0 busy0 s0 100 [1, 2, 3, 4]).1 (by decide)).2.2.1⟩,
   ((C3_do_hijack_target env0 ok0 s0 100 [1, 2, 3, 4]).2 (by decide)).2.1⟩

/-! ## Validation failures of `hijack_target_prepare` -/

theorem prepare_length_fail (env : Env) (kmalloc_ok : Bool) (s : State)
    (target hook_dest space : Nat) (h : check_function_length_enough env target = false) :
    hijack_target_prepare env kmalloc_ok s target hook_dest space =
      (-1, s.log (Event.logerror (LogMsg.short_than_hijack_size target))) := by
  simp [hijack_target_prepare, h]

/-- C4: when the resolved symbol size of the target is below `HIJACK_SIZE`,
`hijack_target_prepare` fails with `-1` and the diagnostic "short than hijack_size",
and the registry (every bucket) and memory are what they were. -/
theorem C4_prepare_too_short (env : Env) (kmalloc_ok : Bool) (s : State)
    (target hook_dest space : Nat)
    (h : (env.get_symbol_pos target).2.1 < env.HIJACK_SIZE) :
    (hijack_target_prepare env kmalloc_ok s target hook_dest space).1 = -1 ∧
    (hijack_target_prepare env kmalloc_ok s target hook_dest space).2.all_hijack_targets =
      s.all_hijack_targets ∧
    registry env (hijack_target_prepare env kmalloc_ok s target hook_dest space).2 =
      registry env s ∧
    (hijack_target_prepare env kmalloc_ok s target hook_dest space).2.mem = s.mem ∧
    (hijack_target_prepare env kmalloc_ok s target hook_dest space).2.trace =
      s.trace ++ [Event.logerror (LogMsg.short_than_hijack_size target)] := by
  have hc : check_function_length_enough env target = false := by
    simp only [check_function_length_enough]
    rw [if_neg]
    intro hh
    omega
  rw [prepare_length_fail env kmalloc_ok s target hook_dest space hc]
  simp [State.log, registry]

/-- C4, evaluated on the 2-byte function at `200` of `env0`. -/
theorem C4_prepare_too_short_witness :
    (env0.get_symbol_pos 200).2.1 < env0.HIJACK_SIZE ∧
    (hijack_target_prepare env0 true s0 200 900 0).1 = -1 ∧
    (hijack_target_prepare env0 true s0 200 900 0).2.all_hijack_targets =
      s0.all_hijack_targets :=
  ⟨by decide, (C4_prepare_too_short env0 true s0 200 900 0 (by decide)).1,
    (C4_prepare_too_short env0 true s0 200 900 0 (by decide)).2.1⟩

/-- C5, as stated, fails: on `env0` the address `304` lies at offset 4 inside a function
that is long enough, and `200` starts a function that is too short; `hijack_target_prepare`
returns the same value for both, so no reading of the returned value tells a
not-at-function-start failure from a too-short failure, and both calls log the same
"short than hijack_size" diagnostic. -/
theorem C5_counterexample :
    (env0.get_symbol_pos 304).2.2 ≠ 0 ∧
    env0.HIJACK_SIZE ≤ (env0.get_symbol_pos 304).2.1 ∧
    (env0.get_symbol_pos 200).2.1 < env0.HIJACK_SIZE ∧
    (¬ ∃ decode : Int → Bool,
        decode (hijack_target_prepare env0 true s0 304 900 0).1 = true ∧
        decode (hijack_target_prepare env0 true s0 200 900 0).1 = false) ∧
    (hijack_target_prepare env0 true s0 304 900 0).2.trace =
      [Event.logerror (LogMsg.short_than_hijack_size 304)] ∧
    (hijack_target_prepare env0 true s0 200 900 0).2.trace =
      [Event.logerror (LogMsg.short_than_hijack_size 200)] := by
  have hA : check_function_length_enough env0 304 = false := by decide
  have hB : check_function_length_enough env0 200 = false := by decide
  rw [prepare_length_fail env0 true s0 304 900 0 hA, prepare_length_fail env0 true s0 200 900 0 hB]
  refine ⟨by decide, by decide, by decide, ?_, rfl, rfl⟩
  rintro ⟨decode, h1, h2⟩
  simp only [h1] at h2
  exact Bool.noConfusion h2

/-- C5, amended: when the resolved offset of the target within its symbol is non-zero,
`hijack_target_prepare` fails with `-1` and the diagnostic "short than hijack_size", the
value and diagnostic it also gives for a function that is too short, and the registry
and memory are what they were. -/
theorem C5_prepare_nonzero_offset (env : Env) (kmalloc_ok : Bool) (s : State)
    (target hook_dest space : Nat)
    (h : (env.get_symbol_pos target).2.2 ≠ 0) :
    (hijack_target_prepare env kmalloc_ok s target hook_dest space).1 = -1 ∧
    (hijack_target_prepare env kmalloc_ok s target hook_dest space).2.all_hijack_targets =
      s.all_hijack_targets ∧
    registry env (hijack_target_prepare env kmalloc_ok s target hook_dest space).2 =
      registry env s ∧
    (hijack_target_prepare env kmalloc_ok s target hook_dest space).2.mem = s.mem ∧
    (hijack_target_prepare env kmalloc_ok s target hook_dest space).2.trace =
      s.trace ++ [Event.logerror (LogMsg.short_than_hijack_size target)] := by
  have hc : check_function_length_enough env target = false := by
    simp only [check_function_length_enough]
    rw [if_neg]
    intro hh
    exact h hh.2.1
  rw [prepare_length_fail env kmalloc_ok s target hook_dest space hc]
  simp [State.log, registry]

/-- C5, amended, evaluated at offset 4 of the function at `300` of `env0`. -/
theorem C5_prepare_nonzero_offset_witness :
    (env0.get_symbol_pos 304).2.2 ≠ 0 ∧
    (hijack_target_prepare env0 true s0 304 900 0).1 = -1 ∧
    (hijack_target_prepare env0 true s0 304 900 0).2.all_hijack_targets =
      s0.all_hijack_targets :=
  ⟨by decide, (C5_prepare_nonzero_offset env0 true s0 304 900 0 (by decide)).1,
    (C5_prepare_nonzero_offset env0 true s0 304 900 0 (by decide)).2.1⟩

/-! ## `hijack_target_enable` on a target that was never prepared -/

/-- C7: on a target without a descriptor in the registry, `hijack_target_enable` returns
`-1`, its only trace entry is the "not been prepared" message (no patch attempt, no
trampoline write), and registry and memory are unchanged. -/
theorem C7_enable_not_prepared (env : Env) (o : Outcome) (s : State) (target : Nat)
    (h : ¬ registered env s target) :
    (hijack_target_enable env o s target).1 = -1 ∧
    (hijack_target_enable env o s target).2.trace =
      s.trace ++ [Event.loginfo (LogMsg.not_been_prepared target)] ∧
    (hijack_target_enable env o s target).2.all_hijack_targets = s.all_hijack_targets ∧
    (hijack_target_enable env o s target).2.mem = s.mem := by
  have hf := hash_find_of_not_registered h
  simp [hijack_target_enable, hf, State.log]

/-- C7, evaluated on the empty registry of `s0`. -/
theorem C7_enable_not_prepared_witness :
    ¬ registered env0 s0 100 ∧
    (hijack_target_enable env0 ok0 s0 100).1 = -1 ∧
    (hijack_target_enable env0 ok0 s0 100).2.mem = s0.mem :=
  ⟨by simp [registered, mem_registry, s0, empty_table],
   (C7_enable_not_prepared env0 ok0 s0 100
      (by simp [registered, mem_registry, s0, empty_table])).1,
   (C7_enable_not_prepared env0 ok0 s0 100
      (by simp [registered, mem_registry, s0, empty_table])).2.2.2⟩

/-! ## Lemmas on the barrier and on enable / disable -/

theorem stop_machine_table (env : Env) (o : Outcome) (s : State) (dest : Nat)
    (source : List Nat) :
    (stop_machine env o s dest source).2.all_hijack_targets = s.all_hijack_targets := by
  unfold stop_machine do_hijack_target hook_write_range
  by_cases hp : o.pause = 0 <;> by_cases ha : o.active = 0 <;> by_cases hw : o.write = 0 <;>
    simp [hp, ha, hw, State.log]

theorem stop_machine_ok (env : Env) (o : Outcome) (s : State) (dest : Nat)
    (source : List Nat) (h : o.ok) :
    stop_machine env o s dest source =
      (0, { mem := writeBytes s.mem dest (source.take env.HIJACK_SIZE),
            all_hijack_targets := s.all_hijack_targets,
            trace := s.trace ++ [Event.stop_machine dest source,
                                 Event.stack_activeness_safety_check dest,
                                 Event.hook_write_range dest source] }) := by
  obtain ⟨hp, ha, hw⟩ := h
  simp [stop_machine, do_hijack_target, hook_write_range, hp, ha, hw, State.log]

theorem stop_machine_zero_iff (env : Env) (o : Outcome) (s : State) (dest : Nat)
    (source : List Nat) : (stop_machine env o s dest source).1 = 0 ↔ o.ok := by
  unfold stop_machine do_hijack_target hook_write_range Outcome.ok
  by_cases hp : o.pause = 0 <;> by_cases ha : o.active = 0 <;> by_cases hw : o.write = 0 <;>
    simp [hp, ha, hw]

theorem fill_long_jmp_length (env : Env) (buf : List Nat) (dest : Nat) :
    (fill_long_jmp env buf dest).length = buf.length := by
  simp only [fill_long_jmp, List.length_take, List.length_append, List.length_drop]
  omega

theorem source_code_length (env : Env) (hook_dest : Nat) :
    (source_code env hook_dest).length = env.HIJACK_SIZE := by
  simp [source_code, fill_long_jmp_length]

theorem set_bucket_same (t : Nat → List sym_hook) (b : Nat) (chain : List sym_hook) :
    set_bucket t b chain b = chain := by
  simp [set_bucket]

theorem set_bucket_other (t : Nat → List sym_hook) (b : Nat) (chain : List sym_hook)
    {i : Nat} (h : i ≠ b) : set_bucket t b chain i = t i := by
  simp [set_bucket, h]

theorem enable_pre_table (env : Env) (s : State) (sa : sym_hook) :
    (enable_pre env s sa).all_hijack_targets = s.all_hijack_targets := by
  unfold enable_pre
  split <;> simp [fill_hook_template_code_space]

theorem enable_disabled (env : Env) (o : Outcome) (s : State) (target : Nat) (sa : sym_hook)
    (hf : hash_find target (s.all_hijack_targets (bucket_of env target)) = some sa)
    (he : sa.enabled = false) :
    hijack_target_enable env o s target =
      if (stop_machine env o (enable_pre env s sa) target (source_code env sa.hook_dest)).1 = 0
      then (0, set_enabled env
              (stop_machine env o (enable_pre env s sa) target (source_code env sa.hook_dest)).2
              target true)
      else stop_machine env o (enable_pre env s sa) target (source_code env sa.hook_dest) := by
  simp only [hijack_target_enable, hf, he, enable_pre]
  split <;> simp_all

theorem enable_enabled (env : Env) (o : Outcome) (s : State) (target : Nat) (sa : sym_hook)
    (hf : hash_find target (s.all_hijack_targets (bucket_of env target)) = some sa)
    (he : sa.enabled = true) :
    hijack_target_enable env o s target =
      (0, s.log (Event.loginfo (LogMsg.has_been_hijacked target))) := by
  simp [hijack_target_enable, hf, he, (hash_find_some hf).2]

theorem set_enabled_find (env : Env) (s : State) (target : Nat) (v : Bool) (sa : sym_hook)
    (hf : hash_find target (s.all_hijack_targets (bucket_of env target)) = some sa) :
    hash_find target ((set_enabled env s target v).all_hijack_targets (bucket_of env target)) =
      some { sa with enabled := v } := by
  simp only [set_enabled, set_bucket_same]
  exact hash_find_chain_modify (fun x => { x with enabled := v }) (fun _ => rfl) hf

theorem disable_enabled (env : Env) (o : Outcome) (s : State) (target : Nat)
    (need_remove : Bool) (sa : sym_hook)
    (hf : hash_find target (s.all_hijack_targets (bucket_of env target)) = some sa)
    (he : sa.enabled = true) :
    hijack_target_disable env o s target need_remove =
      if (stop_machine env o s target sa.target_code).1 = 0 then
        (0, remove_if_needed env need_remove 0
              (set_enabled env (stop_machine env o s target sa.target_code).2 target false)
              { sa with enabled := false } target)
      else
        ((stop_machine env o s target sa.target_code).1,
          (stop_machine env o s target sa.target_code).2) := by
  simp only [hijack_target_disable, hf, he, if_true]
  by_cases h0 : (stop_machine env o s target sa.target_code).1 = 0
  · simp [h0]
  · simp [h0, remove_if_needed]

theorem disable_disabled (env : Env) (o : Outcome) (s : State) (target : Nat)
    (need_remove : Bool) (sa : sym_hook)
    (hf : hash_find target (s.all_hijack_targets (bucket_of env target)) = some sa)
    (he : sa.enabled = false) :
    hijack_target_disable env o s target need_remove =
      (0, remove_if_needed env need_remove 0
            (s.log (Event.loginfo (LogMsg.has_been_disabled target))) sa target) := by
  simp [hijack_target_disable, hf, he, (hash_find_some hf).2]

theorem disable_not_found (env : Env) (o : Outcome) (s : State) (target : Nat)
    (need_remove : Bool)
    (hf : hash_find target (s.all_hijack_targets (bucket_of env target)) = none) :
    hijack_target_disable env o s target need_remove =
      (-1, s.log (Event.loginfo (LogMsg.not_been_prepared target))) := by
  simp [hijack_target_disable, hf]

theorem enable_not_found (env : Env) (o : Outcome) (s : State) (target : Nat)
    (hf : hash_find target (s.all_hijack_targets (bucket_of env target)) = none) :
    hijack_target_enable env o s target =
      (-1, s.log (Event.loginfo (LogMsg.not_been_prepared target))) := by
  simp [hijack_target_enable, hf]

/-! ## Activation -/

theorem enable_installs_jump (env : Env) (o : Outcome) (s : State) (target : Nat)
    (sa : sym_hook)
    (hf : hash_find target (s.all_hijack_targets (bucket_of env target)) = some sa)
    (he : sa.enabled = false) :
    (o.ok →
      (hijack_target_enable env o s target).1 = 0 ∧
      hash_find target
          ((hijack_target_enable env o s target).2.all_hijack_targets (bucket_of env target)) =
        some { sa with enabled := true } ∧
      readBytes (hijack_target_enable env o s target).2.mem target env.HIJACK_SIZE =
        source_code env sa.hook_dest) ∧
    source_code env sa.hook_dest =
      fill_long_jmp env (List.replicate env.HIJACK_SIZE 0) sa.hook_dest ∧
    (source_code env sa.hook_dest).length = env.HIJACK_SIZE ∧
    (∃ sa1, hash_find target
          ((hijack_target_enable env o s target).2.all_hijack_targets (bucket_of env target)) =
        some sa1 ∧
      (sa1.enabled = true →
        (hijack_target_enable env o s target).1 = 0 ∧
        readBytes (hijack_target_enable env o s target).2.mem target env.HIJACK_SIZE =
          source_code env sa.hook_dest)) := by
  have hlen := source_code_length env sa.hook_dest
  have hsucc : o.ok →
      (hijack_target_enable env o s target).1 = 0 ∧
      hash_find target
          ((hijack_target_enable env o s target).2.all_hijack_targets (bucket_of env target)) =
        some { sa with enabled := true } ∧
      readBytes (hijack_target_enable env o s target).2.mem target env.HIJACK_SIZE =
        source_code env sa.hook_dest := by
    intro hok
    rw [enable_disabled env o s target sa hf he, stop_machine_ok env o _ _ _ hok]
    refine ⟨by simp, ?_, ?_⟩
    · simp only [if_true]
      apply set_enabled_find
      simpa [enable_pre_table] using hf
    · simp only [if_true, set_enabled]
      rw [← hlen, List.take_length]
      exact readBytes_writeBytes _ _ _
  refine ⟨hsucc, rfl, hlen, ?_⟩
  by_cases hok : o.ok
  · exact ⟨_, (hsucc hok).2.1, fun _ => ⟨(hsucc hok).1, (hsucc hok).2.2⟩⟩
  · have hne : ¬ (stop_machine env o (enable_pre env s sa) target
        (source_code env sa.hook_dest)).1 = 0 := by
      rw [stop_machine_zero_iff]; exact hok
    refine ⟨sa, ?_, fun h => ?_⟩
    · rw [enable_disabled env o s target sa hf he, if_neg hne, stop_machine_table,
        enable_pre_table]
      exact hf
    · rw [he] at h
      exact Bool.noConfusion h

/-! ## Idempotence of enable and disable -/

theorem enable_zero_find (env : Env) (o : Outcome) (s : State) (target : Nat)
    (h : (hijack_target_enable env o s target).1 = 0) :
    ∃ sa, hash_find target
        ((hijack_target_enable env o s target).2.all_hijack_targets (bucket_of env target)) =
      some sa ∧ sa.enabled = true := by
  cases hf : hash_find target (s.all_hijack_targets (bucket_of env target)) with
  | none =>
    rw [enable_not_found env o s target hf] at h
    simp at h
  | some sa =>
    cases he : sa.enabled with
    | true =>
      rw [enable_enabled env o s target sa hf he]
      exact ⟨sa, by simpa [State.log] using hf, he⟩
    | false =>
      rw [enable_disabled env o s target sa hf he] at h ⊢
      by_cases h0 : (stop_machine env o (enable_pre env s sa) target
          (source_code env sa.hook_dest)).1 = 0
      · rw [if_pos h0]
        refine ⟨{ sa with enabled := true }, ?_, rfl⟩
        apply set_enabled_find
        rw [stop_machine_table, enable_pre_table]
        exact hf
      · rw [if_neg h0] at h
        exact absurd h h0

theorem remove_if_needed_false (env : Env) (ret : Int) (s : State) (sa : sym_hook)
    (target : Nat) : remove_if_needed env false ret s sa target = s := by
  simp [remove_if_needed]

theorem disable_zero_find (env : Env) (o : Outcome) (s : State) (target : Nat)
    (h : (hijack_target_disable env o s target false).1 = 0) :
    ∃ sa, hash_find target
        ((hijack_target_disable env o s target false).2.all_hijack_targets
          (bucket_of env target)) = some sa ∧ sa.enabled = false := by
  cases hf : hash_find target (s.all_hijack_targets (bucket_of env target)) with
  | none =>
    rw [disable_not_found env o s target false hf] at h
    simp at h
  | some sa =>
    cases he : sa.enabled with
    | false =>
      rw [disable_disabled env o s target false sa hf he, remove_if_needed_false]
      exact ⟨sa, by simpa [State.log] using hf, he⟩
    | true =>
      rw [disable_enabled env o s target false sa hf he] at h ⊢
      by_cases h0 : (stop_machine env o s target sa.target_code).1 = 0
      · rw [if_pos h0, remove_if_needed_false]
        refine ⟨{ sa with enabled := false }, ?_, rfl⟩
        apply set_enabled_find
        rw [stop_machine_table]
        exact hf
      · rw [if_neg h0] at h
        exact absurd h h0

/-- C8: when a first `hijack_target_enable` on a target returns `0`, a second one on the
same target returns `0` as well and only logs "has been hijacked": there is no patch
attempt and no trampoline write, memory and registry are those left by the first call,
and the descriptor found is still enabled. -/
theorem C8_enable_idempotent (env : Env) (o1 o2 : Outcome) (s : State) (target : Nat)
    (h : (hijack_target_enable env o1 s target).1 = 0) :
    (hijack_target_enable env o2 (hijack_target_enable env o1 s target).2 target).1 = 0 ∧
    (hijack_target_enable env o2 (hijack_target_enable env o1 s target).2 target).2.trace =
      (hijack_target_enable env o1 s target).2.trace ++
        [Event.loginfo (LogMsg.has_been_hijacked target)] ∧
    (hijack_target_enable env o2 (hijack_target_enable env o1 s target).2 target).2.mem =
      (hijack_target_enable env o1 s target).2.mem ∧
    (hijack_target_enable env o2
        (hijack_target_enable env o1 s target).2 target).2.all_hijack_targets =
      (hijack_target_enable env o1 s target).2.all_hijack_targets ∧
    ∃ sa, hash_find target
        ((hijack_target_enable env o2
          (hijack_target_enable env o1 s target).2 target).2.all_hijack_targets
            (bucket_of env target)) = some sa ∧ sa.enabled = true := by
  obtain ⟨sa, hf, he⟩ := enable_zero_find env o1 s target h
  rw [enable_enabled env o2 _ target sa hf he]
  exact ⟨rfl, rfl, rfl, rfl, sa, hf, he⟩

/-- C8, evaluated: the prepared target `100` of `s1` is enabled twice. -/
theorem C8_enable_idempotent_witness :
    (hijack_target_enable env0 ok0 s1 100).1 = 0 ∧
    (hijack_target_enable env0 ok0 (hijack_target_enable env0 ok0 s1 100).2 100).1 = 0 ∧
    (hijack_target_enable env0 ok0 (hijack_target_enable env0 ok0 s1 100).2 100).2.mem =
      (hijack_target_enable env0 ok0 s1 100).2.mem :=
  ⟨by decide, (C8_enable_idempotent env0 ok0 ok0 s1 100 (by decide)).1,
    (C8_enable_idempotent env0 ok0 ok0 s1 100 (by decide)).2.2.1⟩

/-- C9: when `hijack_target_disable(target, false)` has returned `0`, or when the
descriptor found for the target is not enabled, a further
`hijack_target_disable(target, false)` returns `0` and only logs "has been disabled":
there is no patch attempt, memory and registry are unchanged, and the descriptor found
is still disabled. -/
theorem C9_disable_idempotent (env : Env) (o1 o2 : Outcome) (s : State) (target : Nat) :
    ((hijack_target_disable env o1 s target false).1 = 0 →
      hijack_target_disable env o2 (hijack_target_disable env o1 s target false).2 target false =
        (0, (hijack_target_disable env o1 s target false).2.log
              (Event.loginfo (LogMsg.has_been_disabled target))) ∧
      ∃ sa, hash_find target
          ((hijack_target_disable env o2
            (hijack_target_disable env o1 s target false).2 target false).2.all_hijack_targets
              (bucket_of env target)) = some sa ∧ sa.enabled = false) ∧
    (∀ sa, hash_find target (s.all_hijack_targets (bucket_of env target)) = some sa →
      sa.enabled = false →
      hijack_target_disable env o2 s target false =
        (0, s.log (Event.loginfo (LogMsg.has_been_disabled target))) ∧
      (hijack_target_disable env o2 s target false).2.mem = s.mem ∧
      (hijack_target_disable env o2 s target false).2.all_hijack_targets =
        s.all_hijack_targets) := by
  constructor
  · intro h
    obtain ⟨sa, hf, he⟩ := disable_zero_find env o1 s target h
    rw [disable_disabled env o2 _ target false sa hf he, remove_if_needed_false]
    exact ⟨rfl, sa, hf, he⟩
  · intro sa hf he
    rw [disable_disabled env o2 s target false sa hf he, remove_if_needed_false]
    exact ⟨rfl, rfl, rfl⟩

/-- C9, evaluated: the enabled target `100` of `s2` is disabled twice, and the prepared,
never enabled target `100` of `s1` is disabled once. -/
theorem C9_disable_idempotent_witness :
    (hijack_target_disable env0 ok0 s2 100 false).1 = 0 ∧
    (hijack_target_disable env0 ok0 (hijack_target_disable env0 ok0 s2 100 false).2 100 false).1
      = 0 ∧
    (hijack_target_disable env0 ok0 s1 100 false).1 = 0 :=
  ⟨by decide,
   congrArg Prod.fst ((C9_disable_idempotent env0 ok0 ok0 s2 100).1 (by decide)).1,
   congrArg Prod.fst ((C9_disable_idempotent env0 ok0 ok0 s1 100).2 sa100 (by decide) rfl).1⟩

/-! ## The round trip prepare, enable, disable -/

theorem prepare_mem (env : Env) (kmalloc_ok : Bool) (s : State)
    (target hook_dest space : Nat) :
    (hijack_target_prepare env kmalloc_ok s target hook_dest space).2.mem = s.mem := by
  unfold hijack_target_prepare
  split
  · rfl
  · split
    · rfl
    · split
      · rfl
      · cases kmalloc_ok <;> simp [State.log]

theorem prepare_cases (env : Env) (kmalloc_ok : Bool) (s : State)
    (target hook_dest space : Nat) :
    (check_function_length_enough env target = true ∧
      (space = 0 ∨ env.check_target_can_hijack s.mem target = true) ∧
      hash_find target (s.all_hijack_targets (bucket_of env target)) = none ∧
      kmalloc_ok = true ∧
      hijack_target_prepare env kmalloc_ok s target hook_dest space =
        (0, { mem := s.mem,
              all_hijack_targets :=
                hash_add env s.all_hijack_targets (new_sym_hook env s.mem target hook_dest space),
              trace := s.trace ++ [Event.kmalloc true] })) ∨
    ((hijack_target_prepare env kmalloc_ok s target hook_dest space).1 = -1 ∧
      (hijack_target_prepare env kmalloc_ok s target hook_dest space).2.all_hijack_targets =
        s.all_hijack_targets) := by
  unfold hijack_target_prepare
  by_cases h1 : check_function_length_enough env target = false
  · right; simp [h1, State.log]
  · by_cases h2 : space ≠ 0 ∧ env.check_target_can_hijack s.mem target = false
    · right; simp [h1, h2, State.log]
    · by_cases h3 : (hash_find target (s.all_hijack_targets (bucket_of env target))).isSome
      · right; simp [h1, h2, h3, State.log]
      · cases kmalloc_ok with
        | false => right; simp [h1, h2, h3, State.log]
        | true =>
          left
          refine ⟨by simpa using h1, ?_, by simpa using h3, rfl, ?_⟩
          · by_cases hs : space = 0
            · exact Or.inl hs
            · right
              cases hc : env.check_target_can_hijack s.mem target with
              | true => rfl
              | false => exact absurd ⟨hs, hc⟩ h2
          · simp [h1, h2, h3, State.log]

theorem hash_find_hash_add (env : Env) (t : Nat → List sym_hook) (sa : sym_hook) :
    hash_find sa.target (hash_add env t sa (bucket_of env sa.target)) = some sa := by
  simp [hash_add, set_bucket, hash_find]

theorem enable_ok (env : Env) (o : Outcome) (s : State) (target : Nat) (sa : sym_hook)
    (hf : hash_find target (s.all_hijack_targets (bucket_of env target)) = some sa)
    (he : sa.enabled = false) (hok : o.ok) :
    hijack_target_enable env o s target =
      (0, set_enabled env
            { mem := writeBytes (enable_pre env s sa).mem target (source_code env sa.hook_dest),
              all_hijack_targets := s.all_hijack_targets,
              trace := (enable_pre env s sa).trace ++
                [Event.stop_machine target (source_code env sa.hook_dest),
                 Event.stack_activeness_safety_check target,
                 Event.hook_write_range target (source_code env sa.hook_dest)] }
            target true) := by
  rw [enable_disabled env o s target sa hf he, stop_machine_ok env o _ _ _ hok]
  simp only [if_true, enable_pre_table]
  rw [← source_code_length env sa.hook_dest, List.take_length]

theorem disable_ok (env : Env) (o : Outcome) (s : State) (target : Nat) (sa : sym_hook)
    (need_remove : Bool)
    (hf : hash_find target (s.all_hijack_targets (bucket_of env target)) = some sa)
    (he : sa.enabled = true) (hok : o.ok) :
    hijack_target_disable env o s target need_remove =
      (0, remove_if_needed env need_remove 0
            (set_enabled env
              { mem := writeBytes s.mem target (sa.target_code.take env.HIJACK_SIZE),
                all_hijack_targets := s.all_hijack_targets,
                trace := s.trace ++
                  [Event.stop_machine target sa.target_code,
                   Event.stack_activeness_safety_check target,
                   Event.hook_write_range target sa.target_code] }
              target false)
            { sa with enabled := false } target) := by
  rw [disable_enabled env o s target need_remove sa hf he, stop_machine_ok env o _ _ _ hok]
  simp

/-- C1: for a target that is eligible (resolved offset 0, resolved size at least
`HIJACK_SIZE`) and not yet registered, running `hijack_target_prepare`, then
`hijack_target_enable`, then `hijack_target_disable(target, false)` with both patches
succeeding leaves at the target the `HIJACK_SIZE` bytes that stood there right before
`hijack_target_enable` was called; and when the prepare call returned `0`, both later
calls return `0` and between them the bytes at the target are the jump buffer. -/
theorem C1_round_trip (env : Env) (kmalloc_ok : Bool) (o1 o2 : Outcome) (s : State)
    (target hook_dest space : Nat)
    (_hoff : (env.get_symbol_pos target).2.2 = 0)
    (_hsize : env.HIJACK_SIZE ≤ (env.get_symbol_pos target).2.1)
    (hnew : ¬ registered env s target) (h1 : o1.ok) (h2 : o2.ok) :
    readBytes
        (hijack_target_disable env o2
          (hijack_target_enable env o1
            (hijack_target_prepare env kmalloc_ok s target hook_dest space).2 target).2
          target false).2.mem target env.HIJACK_SIZE =
      readBytes (hijack_target_prepare env kmalloc_ok s target hook_dest space).2.mem
        target env.HIJACK_SIZE ∧
    ((hijack_target_prepare env kmalloc_ok s target hook_dest space).1 = 0 →
      (hijack_target_enable env o1
        (hijack_target_prepare env kmalloc_ok s target hook_dest space).2 target).1 = 0 ∧
      (hijack_target_disable env o2
        (hijack_target_enable env o1
          (hijack_target_prepare env kmalloc_ok s target hook_dest space).2 target).2
        target false).1 = 0 ∧
      readBytes
          (hijack_target_enable env o1
            (hijack_target_prepare env kmalloc_ok s target hook_dest space).2 target).2.mem
          target env.HIJACK_SIZE = source_code env hook_dest) := by
  have hnone := hash_find_of_not_registered hnew
  rcases prepare_cases env kmalloc_ok s target hook_dest space with
    ⟨_, _, _, _, hp⟩ | ⟨hret, htab⟩
  · rw [hp]
    simp only
    have hf1 : hash_find target
        ((⟨s.mem, hash_add env s.all_hijack_targets
            (new_sym_hook env s.mem target hook_dest space),
            s.trace ++ [Event.kmalloc true]⟩ : State).all_hijack_targets
          (bucket_of env target)) = some (new_sym_hook env s.mem target hook_dest space) :=
      hash_find_hash_add env s.all_hijack_targets (new_sym_hook env s.mem target hook_dest space)
    rw [enable_ok env o1 _ target _ hf1 rfl h1]
    have hf2 := set_enabled_find env
      { mem := writeBytes
          (enable_pre env ⟨s.mem, hash_add env s.all_hijack_targets
            (new_sym_hook env s.mem target hook_dest space), s.trace ++ [Event.kmalloc true]⟩
            (new_sym_hook env s.mem target hook_dest space)).mem target
          (source_code env (new_sym_hook env s.mem target hook_dest space).hook_dest),
        all_hijack_targets := hash_add env s.all_hijack_targets
            (new_sym_hook env s.mem target hook_dest space),
        trace := (enable_pre env ⟨s.mem, hash_add env s.all_hijack_targets
            (new_sym_hook env s.mem target hook_dest space), s.trace ++ [Event.kmalloc true]⟩
            (new_sym_hook env s.mem target hook_dest space)).trace ++
          [Event.stop_machine target
              (source_code env (new_sym_hook env s.mem target hook_dest space).hook_dest),
           Event.stack_activeness_safety_check target,
           Event.hook_write_range target
              (source_code env (new_sym_hook env s.mem target hook_dest space).hook_dest)] }
      target true (new_sym_hook env s.mem target hook_dest space) hf1
    rw [disable_ok env o2 _ target _ false hf2 rfl h2, remove_if_needed_false]
    have hlen : (readBytes s.mem target env.HIJACK_SIZE).length = env.HIJACK_SIZE :=
      readBytes_length _ _ _
    refine ⟨?_, fun _ => ⟨rfl, rfl, ?_⟩⟩
    · simp only [set_enabled, new_sym_hook]
      rw [List.take_of_length_le (le_of_eq hlen)]
      exact readBytes_writeBytes_len _ _ _ _ hlen
    · simp only [set_enabled, new_sym_hook]
      exact readBytes_writeBytes_len _ _ _ _ (source_code_length env hook_dest)
  · have hnone1 : hash_find target
        ((hijack_target_prepare env kmalloc_ok s target hook_dest space).2.all_hijack_targets
          (bucket_of env target)) = none := by
      rw [htab]; exact hnone
    rw [enable_not_found env o1 _ target hnone1]
    have hnone2 : hash_find target
        (((hijack_target_prepare env kmalloc_ok s target hook_dest space).2.log
          (Event.loginfo (LogMsg.not_been_prepared target))).all_hijack_targets
          (bucket_of env target)) = none := hnone1
    rw [disable_not_found env o2 _ target false hnone2]
    refine ⟨rfl, fun h0 => ?_⟩
    rw [hret] at h0
    exact absurd h0 (by decide)

/-- C1, evaluated: the function at `100` of `env0` is prepared with a trampoline region
at `500`, enabled and disabled; all three calls succeed, the jump to `900` stands at the
target in between, and the original bytes are back at the end. -/
theorem C1_round_trip_witness :
    (env0.get_symbol_pos 100).2.2 = 0 ∧
    env0.HIJACK_SIZE ≤ (env0.get_symbol_pos 100).2.1 ∧
    ¬ registered env0 s0 100 ∧ ok0.ok ∧
    (hijack_target_prepare env0 true s0 100 900 500).1 = 0 ∧
    readBytes
        (hijack_target_disable env0 ok0
          (hijack_target_enable env0 ok0
            (hijack_target_prepare env0 true s0 100 900 500).2 100).2
          100 false).2.mem 100 env0.HIJACK_SIZE =
      readBytes (hijack_target_prepare env0 true s0 100 900 500).2.mem 100 env0.HIJACK_SIZE ∧
    readBytes
        (hijack_target_enable env0 ok0
          (hijack_target_prepare env0 true s0 100 900 500).2 100).2.mem 100 4 =
      [233, 132, 0, 0] :=
  ⟨by decide, by decide, by simp [registered, mem_registry, s0, empty_table], by decide,
   by decide,
   (C1_round_trip env0 true ok0 ok0 s0 100 900 500 (by decide) (by decide)
      (by simp [registered, mem_registry, s0, empty_table]) (by decide) (by decide)).1,
   ((C1_round_trip env0 true ok0 ok0 s0 100 900 500 (by decide) (by decide)
      (by simp [registered, mem_registry, s0, empty_table]) (by decide) (by decide)).2
      (by decide)).2.2⟩

/-! ## The registry invariant holds in every reachable state -/

theorem chainSub_refl (c : List sym_hook) : ChainSub c c := List.Sublist.refl _

theorem chainSub_trans {c1 c2 c3 : List sym_hook} (h1 : ChainSub c1 c2) (h2 : ChainSub c2 c3) :
    ChainSub c1 c3 := List.Sublist.trans h1 h2

theorem chain_modify_forget (target : Nat) (v : Bool) (c : List sym_hook) :
    (chain_modify target (fun x => { x with enabled := v }) c).map forget_enabled =
      c.map forget_enabled := by
  induction c with
  | nil => rfl
  | cons x rest ih =>
    by_cases hx : x.target = target
    · simp [chain_modify, hx, forget_enabled]
    · simp [chain_modify, hx, ih]

theorem chain_modify_sub (target : Nat) (v : Bool) (c : List sym_hook) :
    ChainSub (chain_modify target (fun x => { x with enabled := v }) c) c := by
  unfold ChainSub
  rw [chain_modify_forget]

theorem chain_del_sublist (target : Nat) (c : List sym_hook) :
    (chain_del target c).Sublist c := by
  induction c with
  | nil => exact List.Sublist.refl _
  | cons x rest ih =>
    by_cases hx : x.target = target
    · simp [chain_del, hx]
    · simp only [chain_del, hx, if_false]
      exact ih.cons₂ x

theorem chain_del_sub (target : Nat) (c : List sym_hook) : ChainSub (chain_del target c) c :=
  (chain_del_sublist target c).map forget_enabled

theorem forget_enabled_target (sa : sym_hook) : (forget_enabled sa).target = sa.target := rfl

theorem chainSub_targets {c1 c : List sym_hook} (h : ChainSub c1 c) :
    (c1.map sym_hook.target).Sublist (c.map sym_hook.target) := by
  have h2 := h.map sym_hook.target
  simpa [List.map_map, Function.comp_def, forget_enabled_target] using h2

theorem chainSub_mem {c1 c : List sym_hook} (h : ChainSub c1 c) {x : sym_hook} (hx : x ∈ c1) :
    ∃ y ∈ c, y.target = x.target ∧ y.target_code = x.target_code ∧
      y.template_return_addr = x.template_return_addr := by
  have h1 : forget_enabled x ∈ c.map forget_enabled := h.subset (List.mem_map_of_mem _ hx)
  obtain ⟨y, hy, hxy⟩ := List.mem_map.1 h1
  refine ⟨y, hy, ?_, ?_, ?_⟩
  · have := congrArg sym_hook.target hxy
    simpa [forget_enabled] using this
  · have := congrArg sym_hook.target_code hxy
    simpa [forget_enabled] using this
  · have := congrArg sym_hook.template_return_addr hxy
    simpa [forget_enabled] using this

theorem tableWF_set_bucket {env : Env} {t : Nat → List sym_hook} (h : TableWF env t)
    (b : Nat) {c : List sym_hook} (hc : ChainSub c (t b)) : TableWF env (set_bucket t b c) := by
  intro i
  by_cases hi : i = b
  · subst hi
    rw [set_bucket_same]
    refine ⟨fun sa hsa => ?_, (h i).2.sublist (chainSub_targets hc)⟩
    obtain ⟨y, hy, ht, hcode, hret⟩ := chainSub_mem hc hsa
    have := (h i).1 y hy
    rw [ht, hcode, hret] at this
    exact this
  · rw [set_bucket_other _ _ _ hi]
    exact h i

theorem tableWF_empty (env : Env) : TableWF env empty_table := by
  intro b
  simp [empty_table]

theorem tableWF_hash_add {env : Env} {t : Nat → List sym_hook} (h : TableWF env t)
    (sa : sym_hook) (hlen : sa.target_code.length = env.HIJACK_SIZE)
    (hchk : check_function_length_enough env sa.target = true)
    (hret : sa.template_return_addr = template_return_addr env sa.target)
    (hnew : hash_find sa.target (t (bucket_of env sa.target)) = none) :
    TableWF env (hash_add env t sa) := by
  intro i
  unfold hash_add
  by_cases hi : i = bucket_of env sa.target
  · subst hi
    rw [set_bucket_same]
    refine ⟨fun x hx => ?_, ?_⟩
    · rcases List.mem_cons.1 hx with rfl | hx
      · exact ⟨rfl, hlen, hchk, hret⟩
      · exact (h _).1 x hx
    · rw [List.map_cons, List.nodup_cons]
      refine ⟨fun hmem => ?_, (h _).2⟩
      obtain ⟨y, hy, hyt⟩ := List.mem_map.1 hmem
      exact (hash_find_none.1 hnew) y hy hyt
  · rw [set_bucket_other _ _ _ hi]
    exact h i

theorem WF_prepare {env : Env} {s : State} (h : WF env s) (kmalloc_ok : Bool)
    (target hook_dest space : Nat) :
    WF env (hijack_target_prepare env kmalloc_ok s target hook_dest space).2 := by
  rcases prepare_cases env kmalloc_ok s target hook_dest space with
    ⟨hchk, _, hnone, _, hp⟩ | ⟨_, htab⟩
  · rw [hp]
    exact tableWF_hash_add h _ (readBytes_length _ _ _) hchk rfl hnone
  · unfold WF
    rw [htab]
    exact h

theorem set_enabled_WF {env : Env} {s : State} (h : WF env s) (target : Nat) (v : Bool) :
    WF env (set_enabled env s target v) :=
  tableWF_set_bucket h _ (chain_modify_sub target v _)

theorem WF_of_table_eq {env : Env} {s s1 : State} (h : WF env s)
    (ht : s1.all_hijack_targets = s.all_hijack_targets) : WF env s1 := by
  unfold WF
  rw [ht]
  exact h

theorem WF_enable {env : Env} {s : State} (h : WF env s) (o : Outcome) (target : Nat) :
    WF env (hijack_target_enable env o s target).2 := by
  cases hf : hash_find target (s.all_hijack_targets (bucket_of env target)) with
  | none =>
    rw [enable_not_found env o s target hf]
    exact h
  | some sa =>
    cases he : sa.enabled with
    | true =>
      rw [enable_enabled env o s target sa hf he]
      exact h
    | false =>
      rw [enable_disabled env o s target sa hf he]
      have hsm : WF env (stop_machine env o (enable_pre env s sa) target
          (source_code env sa.hook_dest)).2 :=
        WF_of_table_eq h (by rw [stop_machine_table, enable_pre_table])
      split
      · exact set_enabled_WF hsm target true
      · exact hsm

theorem remove_if_needed_WF {env : Env} {s : State} (h : WF env s) (need_remove : Bool)
    (ret : Int) (sa : sym_hook) (target : Nat) :
    WF env (remove_if_needed env need_remove ret s sa target) := by
  unfold remove_if_needed
  split
  · exact tableWF_set_bucket h _ (chain_del_sub target _)
  · exact h

theorem WF_disable {env : Env} {s : State} (h : WF env s) (o : Outcome) (target : Nat)
    (need_remove : Bool) : WF env (hijack_target_disable env o s target need_remove).2 := by
  cases hf : hash_find target (s.all_hijack_targets (bucket_of env target)) with
  | none =>
    rw [disable_not_found env o s target need_remove hf]
    exact h
  | some sa =>
    have hsm : WF env (stop_machine env o s target sa.target_code).2 :=
      WF_of_table_eq h (stop_machine_table _ _ _ _ _)
    cases he : sa.enabled with
    | false =>
      rw [disable_disabled env o s target need_remove sa hf he]
      have hlog : WF env (s.log (Event.loginfo (LogMsg.has_been_disabled target))) := h
      exact remove_if_needed_WF hlog _ _ _ _
    | true =>
      rw [disable_enabled env o s target need_remove sa hf he]
      split
      · exact remove_if_needed_WF (set_enabled_WF hsm target false) _ _ _ _
      · exact hsm

theorem chainSub_cons_same {c1 c : List sym_hook} (x y : sym_hook)
    (hxy : forget_enabled x = forget_enabled y) (h : ChainSub c1 c) :
    ChainSub (x :: c1) (y :: c) := by
  unfold ChainSub at *
  rw [List.map_cons, List.map_cons, hxy]
  exact h.cons₂ _

theorem chainSub_cons_drop {c1 c : List sym_hook} (y : sym_hook) (h : ChainSub c1 c) :
    ChainSub c1 (y :: c) := by
  unfold ChainSub at *
  rw [List.map_cons]
  exact h.cons _

theorem disable_all_chain_spec (env : Env) (need_remove : Bool) (sched : Nat → Outcome)
    (chain : List sym_hook) :
    ∀ c : State × Nat × Bool,
      (disable_all_chain env need_remove sched chain c).2.1.all_hijack_targets =
        c.1.all_hijack_targets ∧
      ChainSub (disable_all_chain env need_remove sched chain c).1 chain := by
  induction chain with
  | nil =>
    intro c
    exact ⟨rfl, chainSub_refl _⟩
  | cons sa rest ih =>
    rintro ⟨s, k, retry⟩
    unfold disable_all_chain
    by_cases he : sa.enabled = true
    · rw [if_pos he]
      by_cases hr : (stop_machine env (sched k) s sa.target sa.target_code).1 ≠ 0
      · rw [if_pos hr]
        have := ih ((stop_machine env (sched k) s sa.target sa.target_code).2, k + 1, true)
        exact ⟨by rw [this.1, stop_machine_table], chainSub_cons_same _ _ rfl this.2⟩
      · rw [if_neg hr]
        by_cases hn : need_remove = true
        · rw [if_pos hn]
          have := ih (((stop_machine env (sched k) s sa.target sa.target_code).2.log
            (Event.kfree { sa with enabled := false })), k + 1, retry)
          refine ⟨?_, chainSub_cons_drop _ this.2⟩
          rw [this.1]
          simp [State.log, stop_machine_table]
        · rw [if_neg hn]
          have := ih ((stop_machine env (sched k) s sa.target sa.target_code).2, k + 1, retry)
          exact ⟨by rw [this.1, stop_machine_table], chainSub_cons_same _ _ rfl this.2⟩
    · rw [if_neg he]
      by_cases hn : need_remove = true
      · rw [if_pos hn]
        have := ih (s.log (Event.kfree sa), k, retry)
        exact ⟨by rw [this.1]; rfl, chainSub_cons_drop _ this.2⟩
      · rw [if_neg hn]
        have := ih (s, k, retry)
        exact ⟨this.1, chainSub_cons_same _ _ rfl this.2⟩

theorem disable_all_bucket_WF {env : Env} (need_remove : Bool) (sched : Nat → Outcome)
    {c : State × Nat × Bool} (h : WF env c.1) (b : Nat) :
    WF env (disable_all_bucket env need_remove sched c b).1 := by
  have hspec := disable_all_chain_spec env need_remove sched (c.1.all_hijack_targets b) c
  unfold disable_all_bucket WF
  simp only
  rw [hspec.1]
  exact tableWF_set_bucket h b hspec.2

theorem disable_all_fold_WF {env : Env} (need_remove : Bool) (sched : Nat → Outcome)
    (bs : List Nat) :
    ∀ c : State × Nat × Bool, WF env c.1 →
      WF env (bs.foldl (disable_all_bucket env need_remove sched) c).1 := by
  induction bs with
  | nil => intro c h; exact h
  | cons b rest ih =>
    intro c h
    rw [List.foldl_cons]
    exact ih _ (disable_all_bucket_WF need_remove sched h b)

theorem disable_all_pass_WF {env : Env} (need_remove : Bool) (sched : Nat → Outcome)
    {s : State} (h : WF env s) (k : Nat) :
    WF env (disable_all_pass env need_remove sched s k).1 :=
  disable_all_fold_WF need_remove sched _ (s, k, false) h

theorem WF_disable_all {env : Env} (need_remove : Bool) (sched : Nat → Outcome) (fuel : Nat) :
    ∀ (k : Nat) (s s1 : State), WF env s →
      hijack_target_disable_all env need_remove sched fuel k s = some s1 → WF env s1 := by
  induction fuel with
  | zero =>
    intro k s s1 _ h
    simp [hijack_target_disable_all] at h
  | succ n ih =>
    intro k s s1 hwf h
    unfold hijack_target_disable_all at h
    have hp := disable_all_pass_WF need_remove sched hwf k
    by_cases hr : (disable_all_pass env need_remove sched s k).2.2 = true
    · rw [if_pos hr] at h
      have hlog : WF env ((disable_all_pass env need_remove sched s k).1.log
          (Event.msleep 1000)) := WF_of_table_eq hp rfl
      exact ih _ _ _ hlog h
    · rw [if_neg hr] at h
      rw [← Option.some.inj h]
      exact WF_of_table_eq hp rfl

theorem Reachable.wf {env : Env} {s : State} (h : Reachable env s) : WF env s := by
  induction h with
  | init m => exact tableWF_empty env
  | prepare kmalloc_ok target hook_dest space _ ih => exact WF_prepare ih _ _ _ _
  | enable o target _ ih => exact WF_enable ih _ _
  | disable o target need_remove _ ih => exact WF_disable ih _ _ _
  | disable_all need_remove sched fuel _ hrun ih => exact WF_disable_all _ _ _ _ _ _ ih hrun

/-! ## Uniqueness of targets and duplicate prepares -/

theorem hash_find_of_registered {env : Env} {s : State} (h : WF env s) {target : Nat}
    (hreg : registered env s target) :
    ∃ sa, hash_find target (s.all_hijack_targets (bucket_of env target)) = some sa := by
  obtain ⟨sa, hsa, ht⟩ := hreg
  obtain ⟨b, _, hmem⟩ := mem_registry.1 hsa
  have hb := ((h b).1 sa hmem).1
  rw [ht] at hb
  subst hb
  cases hf : hash_find target (s.all_hijack_targets (bucket_of env target)) with
  | none => exact absurd ht (hash_find_none.1 hf sa hmem)
  | some x => exact ⟨x, rfl⟩

theorem registered_of_hash_find {env : Env} {s : State} {target : Nat} {sa : sym_hook}
    (hf : hash_find target (s.all_hijack_targets (bucket_of env target)) = some sa) :
    registered env s target :=
  ⟨sa, mem_registry.2 ⟨_, bucket_of_lt env target, (hash_find_some hf).1⟩, (hash_find_some hf).2⟩

theorem registry_targets_nodup {env : Env} {s : State} (h : WF env s) :
    ((registry env s).map sym_hook.target).Nodup := by
  unfold registry hash_for_each
  rw [List.map_flatMap, List.nodup_flatMap]
  refine ⟨fun b _ => (h b).2, ?_⟩
  apply List.Nodup.pairwise_of_forall_ne (List.nodup_range _)
  intro a _ b _ hab
  simp only [Function.onFun]
  intro x hxa hxb
  obtain ⟨y, hy, rfl⟩ := List.mem_map.1 hxa
  obtain ⟨z, hz, hzy⟩ := List.mem_map.1 hxb
  have h1 := ((h a).1 y hy).1
  have h2 := ((h b).1 z hz).1
  rw [hzy] at h2
  exact hab (h1.symm.trans h2)

theorem registry_count_le_one {env : Env} {s : State} (h : WF env s) (target : Nat) :
    ((registry env s).filter (fun sa => decide (sa.target = target))).length ≤ 1 := by
  have h1 := List.nodup_iff_count_le_one.1 (registry_targets_nodup h) target
  rw [List.count_eq_countP, List.countP_map, List.countP_eq_length_filter] at h1
  have heq : ((fun x => x == target) ∘ sym_hook.target) =
      (fun sa : sym_hook => decide (sa.target = target)) := by
    funext sa
    simp only [Function.comp]
    by_cases hx : sa.target = target
    · simp [hx]
    · simp [hx]
  rw [heq] at h1
  exact h1

theorem prepare_duplicate {env : Env} {s : State} (h : WF env s) (kmalloc_ok : Bool)
    (target hook_dest space : Nat) (hreg : registered env s target) :
    (hijack_target_prepare env kmalloc_ok s target hook_dest space).1 = -1 ∧
    (hijack_target_prepare env kmalloc_ok s target hook_dest space).2.all_hijack_targets =
      s.all_hijack_targets ∧
    ((space = 0 ∨ env.check_target_can_hijack s.mem target = true) →
      (hijack_target_prepare env kmalloc_ok s target hook_dest space).2.trace =
        s.trace ++ [Event.logerror (LogMsg.has_been_prepared target)]) := by
  obtain ⟨sa, hf⟩ := hash_find_of_registered h hreg
  have hchk : check_function_length_enough env target = true := by
    have := ((h _).1 sa (hash_find_some hf).1).2.2.1
    rw [(hash_find_some hf).2] at this
    exact this
  rcases prepare_cases env kmalloc_ok s target hook_dest space with
    ⟨_, _, hnone, _, _⟩ | ⟨hret, htab⟩
  · rw [hf] at hnone
    exact Option.noConfusion hnone
  · refine ⟨hret, htab, fun hsp => ?_⟩
    have h2 : ¬ (space ≠ 0 ∧ env.check_target_can_hijack s.mem target = false) := by
      rintro ⟨hs, hc⟩
      rcases hsp with hsp | hsp
      · exact hs hsp
      · rw [hc] at hsp
        exact Bool.noConfusion hsp
    simp [hijack_target_prepare, hchk, h2, hf, State.log]

theorem prepare_duplicate_rejected {env : Env} {s : State} (h : WF env s) (kmalloc_ok : Bool)
    (target hook_dest space : Nat) (hreg : registered env s target) (hs : space ≠ 0)
    (hc : env.check_target_can_hijack s.mem target = false) :
    (hijack_target_prepare env kmalloc_ok s target hook_dest space).2.trace =
      s.trace ++ [Event.logerror (LogMsg.contains_unhookable target)] := by
  obtain ⟨sa, hf⟩ := hash_find_of_registered h hreg
  have hchk : check_function_length_enough env target = true := by
    have := ((h _).1 sa (hash_find_some hf).1).2.2.1
    rw [(hash_find_some hf).2] at this
    exact this
  simp [hijack_target_prepare, hchk, hs, hc, State.log]

/-- C6, amended: in every state reachable from the empty registry by sequential calls of
prepare, enable, disable and disable_all, a `hijack_target_prepare` on a target that
already has a descriptor returns the failure `-1` and leaves registry and memory
unchanged; its diagnostic is "has been prepared" when the call passes no trampoline
region or the instruction check accepts the target, and "contains instruction which
cannot hijack" when a trampoline region is passed and the instruction check rejects the
target; the registry holds at most one descriptor per target; and when a prepare of a
target has returned `0`, a second prepare of that target fails and the registry holds
exactly one descriptor for it. -/
theorem C6_prepare_duplicate (env : Env) (s : State) (hr : Reachable env s) :
    (∀ (kmalloc_ok : Bool) (target hook_dest space : Nat), registered env s target →
      (hijack_target_prepare env kmalloc_ok s target hook_dest space).1 = -1 ∧
      (hijack_target_prepare env kmalloc_ok s target hook_dest space).2.all_hijack_targets =
        s.all_hijack_targets ∧
      registry env (hijack_target_prepare env kmalloc_ok s target hook_dest space).2 =
        registry env s ∧
      (hijack_target_prepare env kmalloc_ok s target hook_dest space).2.mem = s.mem ∧
      ((space = 0 ∨ env.check_target_can_hijack s.mem target = true) →
        (hijack_target_prepare env kmalloc_ok s target hook_dest space).2.trace =
          s.trace ++ [Event.logerror (LogMsg.has_been_prepared target)]) ∧
      ((space ≠ 0 ∧ env.check_target_can_hijack s.mem target = false) →
        (hijack_target_prepare env kmalloc_ok s target hook_dest space).2.trace =
          s.trace ++ [Event.logerror (LogMsg.contains_unhookable target)])) ∧
    (∀ target : Nat,
      ((registry env s).filter (fun sa => decide (sa.target = target))).length ≤ 1) ∧
    (∀ (k1 k2 : Bool) (target hook1 space1 hook2 space2 : Nat),
      (hijack_target_prepare env k1 s target hook1 space1).1 = 0 →
      (hijack_target_prepare env k2
        (hijack_target_prepare env k1 s target hook1 space1).2 target hook2 space2).1 = -1 ∧
      ((registry env
          (hijack_target_prepare env k2
            (hijack_target_prepare env k1 s target hook1 space1).2 target hook2 space2).2).filter
        (fun sa => decide (sa.target = target))).length = 1) := by
  have hwf := hr.wf
  refine ⟨fun kmalloc_ok target hook_dest space hreg => ?_, registry_count_le_one hwf, ?_⟩
  · have hd := prepare_duplicate hwf kmalloc_ok target hook_dest space hreg
    refine ⟨hd.1, hd.2.1, ?_, prepare_mem _ _ _ _ _ _, hd.2.2, fun hrej =>
      prepare_duplicate_rejected hwf kmalloc_ok target hook_dest space hreg hrej.1 hrej.2⟩
    unfold registry
    rw [hd.2.1]
  · intro k1 k2 target hook1 space1 hook2 space2 h0
    have hwf1 : WF env (hijack_target_prepare env k1 s target hook1 space1).2 :=
      WF_prepare hwf _ _ _ _
    have hreg1 : registered env (hijack_target_prepare env k1 s target hook1 space1).2 target := by
      rcases prepare_cases env k1 s target hook1 space1 with ⟨_, _, _, _, hp⟩ | ⟨hret, _⟩
      · rw [hp]
        exact registered_of_hash_find
          (hash_find_hash_add env s.all_hijack_targets (new_sym_hook env s.mem target hook1 space1))
      · rw [hret] at h0
        exact absurd h0 (by decide)
    have hd := prepare_duplicate hwf1 k2 target hook2 space2 hreg1
    refine ⟨hd.1, ?_⟩
    have hle := registry_count_le_one (WF_prepare hwf1 k2 target hook2 space2) target
    have hge : 0 < ((registry env
          (hijack_target_prepare env k2
            (hijack_target_prepare env k1 s target hook1 space1).2 target hook2 space2).2).filter
        (fun sa => decide (sa.target = target))).length := by
      unfold registry
      rw [hd.2.1]
      obtain ⟨sa, hsa, ht⟩ := hreg1
      exact List.length_pos_of_mem (List.mem_filter.2 ⟨hsa, by simpa using ht⟩)
    omega

/-- C6, amended, evaluated: in the state `s1`, where the target `100` is prepared, a
further prepare of `100` fails with the diagnostic "has been prepared" and changes
nothing in the table; and from the empty registry `s0`, where the prepare of `100`
returns `0`, a second prepare of `100` returns `-1` and the registry holds exactly one
descriptor for `100`. -/
theorem C6_prepare_duplicate_witness :
    Reachable env0 s1 ∧
    (hijack_target_prepare env0 true s1 100 901 0).1 = -1 ∧
    (hijack_target_prepare env0 true s1 100 901 0).2.all_hijack_targets =
      s1.all_hijack_targets ∧
    (hijack_target_prepare env0 true s1 100 901 0).2.trace =
      s1.trace ++ [Event.logerror (LogMsg.has_been_prepared 100)] ∧
    ((registry env0 s1).filter (fun sa => decide (sa.target = 100))).length ≤ 1 ∧
    Reachable env0 s0 ∧
    (hijack_target_prepare env0 true s0 100 900 0).1 = 0 ∧
    (hijack_target_prepare env0 true
      (hijack_target_prepare env0 true s0 100 900 0).2 100 901 0).1 = -1 ∧
    ((registry env0
        (hijack_target_prepare env0 true
          (hijack_target_prepare env0 true s0 100 900 0).2 100 901 0).2).filter
      (fun sa => decide (sa.target = 100))).length = 1 :=
  ⟨Reachable.prepare true 100 900 0 (Reachable.init mem0),
   ((C6_prepare_duplicate env0 s1 (Reachable.prepare true 100 900 0 (Reachable.init mem0))).1
      true 100 901 0 ⟨sa100, by decide, rfl⟩).1,
   ((C6_prepare_duplicate env0 s1 (Reachable.prepare true 100 900 0 (Reachable.init mem0))).1
      true 100 901 0 ⟨sa100, by decide, rfl⟩).2.1,
   ((C6_prepare_duplicate env0 s1 (Reachable.prepare true 100 900 0 (Reachable.init mem0))).1
      true 100 901 0 ⟨sa100, by decide, rfl⟩).2.2.2.2.1 (Or.inl rfl),
   (C6_prepare_duplicate env0 s1 (Reachable.prepare true 100 900 0 (Reachable.init mem0))).2.1
      100,
   Reachable.init mem0,
   by decide,
   ((C6_prepare_duplicate env0 s0 (Reachable.init mem0)).2.2
      true true 100 900 0 901 0 (by decide)).1,
   ((C6_prepare_duplicate env0 s0 (Reachable.init mem0)).2.2
      true true 100 900 0 901 0 (by decide)).2⟩

/-- C6, as stated, fails: on `env_rej`, whose instruction check rejects every target, the
target `100` is prepared without a trampoline region (the check is not made) and is
registered in a reachable state. A second prepare of `100` that passes the trampoline
region `500` is rejected by the instruction check, which the code makes before the
duplicate check: it returns `-1` with the diagnostic "contains instruction which cannot
hijack", and the diagnostic "has been prepared" is not logged. Also, two prepares of the
target `200`, whose routine is shorter than `HIJACK_SIZE`, both fail and the registry
holds no descriptor for `200`. -/
theorem C6_counterexample :
    Reachable env_rej (hijack_target_prepare env_rej true s0 100 900 0).2 ∧
    (hijack_target_prepare env_rej true s0 100 900 0).1 = 0 ∧
    registry env_rej (hijack_target_prepare env_rej true s0 100 900 0).2 = [sa100] ∧
    (hijack_target_prepare env_rej true
      (hijack_target_prepare env_rej true s0 100 900 0).2 100 901 500).1 = -1 ∧
    (hijack_target_prepare env_rej true
      (hijack_target_prepare env_rej true s0 100 900 0).2 100 901 500).2.trace =
      (hijack_target_prepare env_rej true s0 100 900 0).2.trace ++
        [Event.logerror (LogMsg.contains_unhookable 100)] ∧
    Event.logerror (LogMsg.has_been_prepared 100) ∉
      (hijack_target_prepare env_rej true
        (hijack_target_prepare env_rej true s0 100 900 0).2 100 901 500).2.trace ∧
    (hijack_target_prepare env_rej true s0 200 900 0).1 = -1 ∧
    (hijack_target_prepare env_rej true
      (hijack_target_prepare env_rej true s0 200 900 0).2 200 900 0).1 = -1 ∧
    ((registry env_rej
        (hijack_target_prepare env_rej true
          (hijack_target_prepare env_rej true s0 200 900 0).2 200 900 0).2).filter
      (fun sa => decide (sa.target = 200))).length = 0 :=
  ⟨Reachable.prepare true 100 900 0 (Reachable.init mem0), by decide⟩

/-! ## Disable with removal -/

theorem template_return_addr_int (env : Env) (target : Nat) :
    ((template_return_addr env target : Nat) : Int) =
      ((target : Int) + env.HIJACK_SIZE - env.PTR_SIZE) % ((2 ^ (8 * env.PTR_SIZE) : Nat) : Int) := by
  have hW : 0 < 2 ^ (8 * env.PTR_SIZE) := Nat.pos_pow_of_pos _ (by decide)
  unfold template_return_addr
  generalize 2 ^ (8 * env.PTR_SIZE) = W at hW
  have h1 : env.PTR_SIZE % W ≤ env.HIJACK_SIZE + W := by
    have := Nat.mod_lt env.PTR_SIZE hW
    omega
  have h2 : ((env.HIJACK_SIZE + W - env.PTR_SIZE % W + target : Nat) : Int) =
      (target : Int) + env.HIJACK_SIZE - env.PTR_SIZE + W * (1 + (env.PTR_SIZE / W : Nat)) := by
    have h3 : (env.PTR_SIZE : Int) = (env.PTR_SIZE % W : Nat) + W * (env.PTR_SIZE / W : Nat) := by
      exact_mod_cast (Nat.mod_add_div env.PTR_SIZE W).symm
    push_cast [Nat.cast_sub h1]
    push_cast at h3
    linarith
  rw [Int.natCast_mod, h2, Int.add_mul_emod_self_left]

theorem flatMap_set_bucket_cons_perm (t : Nat → List sym_hook) (b : Nat) (x : sym_hook) :
    ∀ l : List Nat, l.Nodup → b ∈ l →
      (l.flatMap (set_bucket t b (x :: t b))).Perm (x :: l.flatMap t) := by
  intro l
  induction l with
  | nil => intro _ h; simp at h
  | cons i rest ih =>
    intro hnd hb
    rw [List.nodup_cons] at hnd
    simp only [List.flatMap_cons]
    by_cases hi : i = b
    · subst hi
      rw [set_bucket_same]
      have hrest : rest.flatMap (set_bucket t i (x :: t i)) = rest.flatMap t := by
        apply List.flatMap_congr
        intro j hj
        have hne : j ≠ i := fun h => hnd.1 (h ▸ hj)
        exact set_bucket_other _ _ _ hne
      rw [hrest]
      exact List.Perm.refl _
    · rw [set_bucket_other _ _ _ hi]
      have hb2 : b ∈ rest := by
        rcases List.mem_cons.1 hb with h | h
        · exact absurd h.symm hi
        · exact h
      exact (List.Perm.append_left (t i) (ih hnd.2 hb2)).trans List.perm_middle

theorem hash_for_each_hash_add (env : Env) (t : Nat → List sym_hook) (sa : sym_hook) :
    (hash_for_each env (hash_add env t sa)).Perm (sa :: hash_for_each env t) := by
  unfold hash_for_each hash_add
  exact flatMap_set_bucket_cons_perm t _ sa _ (List.nodup_range _)
    (List.mem_range.2 (bucket_of_lt env sa.target))

theorem prepare_zero (env : Env) (kmalloc_ok : Bool) (s : State)
    (target hook_dest space : Nat)
    (h0 : (hijack_target_prepare env kmalloc_ok s target hook_dest space).1 = 0) :
    check_function_length_enough env target = true ∧
    (space = 0 ∨ env.check_target_can_hijack s.mem target = true) ∧
    hash_find target (s.all_hijack_targets (bucket_of env target)) = none ∧
    kmalloc_ok = true ∧
    hijack_target_prepare env kmalloc_ok s target hook_dest space =
      (0, { mem := s.mem,
            all_hijack_targets :=
              hash_add env s.all_hijack_targets (new_sym_hook env s.mem target hook_dest space),
            trace := s.trace ++ [Event.kmalloc true] }) := by
  rcases prepare_cases env kmalloc_ok s target hook_dest space with h | ⟨hret, _⟩
  · exact h
  · rw [hret] at h0
    exact absurd h0 (by decide)

/-- C14: when `hijack_target_prepare(target, hook_dest, space)` returns `0`, the new
descriptor is the head of the bucket of `target`, every other chain is unchanged and the
registry is the former registry plus that one descriptor; the descriptor holds the
target, the `HIJACK_SIZE` bytes found at the target in the memory of the call,
`hook_dest` and `space` as passed, `enabled = false`, and the return address
`target + HIJACK_SIZE - sizeof(void *)` reduced modulo the word size; memory is
unchanged. -/
theorem C14_prepare_descriptor (env : Env) (kmalloc_ok : Bool) (s : State)
    (target hook_dest space : Nat)
    (h0 : (hijack_target_prepare env kmalloc_ok s target hook_dest space).1 = 0) :
    (hijack_target_prepare env kmalloc_ok s target hook_dest space).2.all_hijack_targets
        (bucket_of env target) =
      new_sym_hook env s.mem target hook_dest space ::
        s.all_hijack_targets (bucket_of env target) ∧
    (∀ i, i ≠ bucket_of env target →
      (hijack_target_prepare env kmalloc_ok s target hook_dest space).2.all_hijack_targets i =
        s.all_hijack_targets i) ∧
    (registry env (hijack_target_prepare env kmalloc_ok s target hook_dest space).2).Perm
      (new_sym_hook env s.mem target hook_dest space :: registry env s) ∧
    (∀ sa ∈ s.all_hijack_targets (bucket_of env target), sa.target ≠ target) ∧
    (new_sym_hook env s.mem target hook_dest space).target = target ∧
    (new_sym_hook env s.mem target hook_dest space).target_code =
      readBytes s.mem target env.HIJACK_SIZE ∧
    (new_sym_hook env s.mem target hook_dest space).hook_dest = hook_dest ∧
    (new_sym_hook env s.mem target hook_dest space).hook_template_code_space = space ∧
    (new_sym_hook env s.mem target hook_dest space).enabled = false ∧
    (((new_sym_hook env s.mem target hook_dest space).template_return_addr : Nat) : Int) =
      ((target : Int) + env.HIJACK_SIZE - env.PTR_SIZE) %
        ((2 ^ (8 * env.PTR_SIZE) : Nat) : Int) ∧
    (hijack_target_prepare env kmalloc_ok s target hook_dest space).2.mem = s.mem := by
  obtain ⟨_, _, hnone, _, hp⟩ := prepare_zero env kmalloc_ok s target hook_dest space h0
  rw [hp]
  refine ⟨?_, ?_, ?_, hash_find_none.1 hnone, rfl, rfl, rfl, rfl, rfl,
    template_return_addr_int env target, rfl⟩
  · simp [hash_add, new_sym_hook, set_bucket]
  · intro i hi
    simp only [hash_add, new_sym_hook]
    exact set_bucket_other _ _ _ hi
  · exact hash_for_each_hash_add env s.all_hijack_targets _

/-- C14, evaluated: the prepare of the target `100` on the empty registry of `s0`. -/
theorem C14_prepare_descriptor_witness :
    (hijack_target_prepare env0 true s0 100 900 500).1 = 0 ∧
    (hijack_target_prepare env0 true s0 100 900 500).2.all_hijack_targets
        (bucket_of env0 100) =
      new_sym_hook env0 s0.mem 100 900 500 :: s0.all_hijack_targets (bucket_of env0 100) ∧
    (hijack_target_prepare env0 true s0 100 900 500).2.mem = s0.mem :=
  ⟨by decide, (C14_prepare_descriptor env0 true s0 100 900 500 (by decide)).1,
    (C14_prepare_descriptor env0 true s0 100 900 500 (by decide)).2.2.2.2.2.2.2.2.2.2⟩

/-! ## When prepare succeeds -/

theorem check_function_length_enough_iff (env : Env) (target : Nat) :
    check_function_length_enough env target = true ↔
      (env.get_symbol_pos target).1 ≠ 0 ∧ (env.get_symbol_pos target).2.2 = 0 ∧
      env.HIJACK_SIZE ≤ (env.get_symbol_pos target).2.1 := by
  unfold check_function_length_enough
  by_cases h : (env.get_symbol_pos target).1 ≠ 0 ∧ (env.get_symbol_pos target).2.2 = 0 ∧
      env.HIJACK_SIZE ≤ (env.get_symbol_pos target).2.1
  · rw [if_pos h]
    exact ⟨fun _ => h, fun _ => rfl⟩
  · rw [if_neg h]
    exact ⟨fun hf => Bool.noConfusion hf, fun hc => absurd hc h⟩

theorem prepare_ok (env : Env) (s : State) (target hook_dest space : Nat)
    (h1 : check_function_length_enough env target = true)
    (h2 : space = 0 ∨ env.check_target_can_hijack s.mem target = true)
    (h3 : hash_find target (s.all_hijack_targets (bucket_of env target)) = none) :
    (hijack_target_prepare env true s target hook_dest space).1 = 0 := by
  have h2n : ¬ (space ≠ 0 ∧ env.check_target_can_hijack s.mem target = false) := by
    rintro ⟨hs, hc⟩
    rcases h2 with h2 | h2
    · exact hs h2
    · rw [hc] at h2
      exact Bool.noConfusion h2
  simp [hijack_target_prepare, h1, h2n, h3]

theorem prepare_fail (env : Env) (kmalloc_ok : Bool) (s : State)
    (target hook_dest space : Nat)
    (h : (hijack_target_prepare env kmalloc_ok s target hook_dest space).1 ≠ 0) :
    (hijack_target_prepare env kmalloc_ok s target hook_dest space).1 = -1 ∧
    (hijack_target_prepare env kmalloc_ok s target hook_dest space).2.all_hijack_targets =
      s.all_hijack_targets := by
  rcases prepare_cases env kmalloc_ok s target hook_dest space with ⟨_, _, _, _, hp⟩ | h2
  · rw [hp] at h
    exact absurd rfl h
  · exact h2

/-- C16: in a reachable state `hijack_target_prepare` returns `0` exactly when the
resolver gives a non-zero position, offset 0 and a size of at least `HIJACK_SIZE`, no
trampoline region is passed or `check_target_can_hijack` accepts the target, the target
has no descriptor yet, and the allocation succeeds; every other call returns `-1` and
leaves registry and memory unchanged; and a call without trampoline region does not
depend on `check_target_can_hijack`. -/
theorem C16_prepare_success_iff (env : Env) (kmalloc_ok : Bool) (s : State)
    (target hook_dest space : Nat) (hr : Reachable env s) :
    ((hijack_target_prepare env kmalloc_ok s target hook_dest space).1 = 0 ↔
      ((env.get_symbol_pos target).1 ≠ 0 ∧ (env.get_symbol_pos target).2.2 = 0 ∧
        env.HIJACK_SIZE ≤ (env.get_symbol_pos target).2.1) ∧
      (space = 0 ∨ env.check_target_can_hijack s.mem target = true) ∧
      ¬ registered env s target ∧
      kmalloc_ok = true) ∧
    ((hijack_target_prepare env kmalloc_ok s target hook_dest space).1 ≠ 0 →
      (hijack_target_prepare env kmalloc_ok s target hook_dest space).1 = -1 ∧
      (hijack_target_prepare env kmalloc_ok s target hook_dest space).2.all_hijack_targets =
        s.all_hijack_targets ∧
      registry env (hijack_target_prepare env kmalloc_ok s target hook_dest space).2 =
        registry env s ∧
      (hijack_target_prepare env kmalloc_ok s target hook_dest space).2.mem = s.mem) ∧
    (∀ f : Mem → Nat → Bool,
      hijack_target_prepare { env with check_target_can_hijack := f } kmalloc_ok s target
          hook_dest 0 =
        hijack_target_prepare env kmalloc_ok s target hook_dest 0) := by
  have hwf := hr.wf
  refine ⟨⟨fun h0 => ?_, fun hc => ?_⟩, fun hne => ?_, fun f => ?_⟩
  · obtain ⟨h1, h2, h3, h4, _⟩ := prepare_zero env kmalloc_ok s target hook_dest space h0
    refine ⟨(check_function_length_enough_iff env target).1 h1, h2, fun hreg => ?_, h4⟩
    obtain ⟨sa, hsa⟩ := hash_find_of_registered hwf hreg
    rw [h3] at hsa
    exact Option.noConfusion hsa
  · obtain ⟨h1, h2, h3, h4⟩ := hc
    subst h4
    exact prepare_ok env s target hook_dest space
      ((check_function_length_enough_iff env target).2 h1) h2
      (hash_find_of_not_registered h3)
  · have hf := prepare_fail env kmalloc_ok s target hook_dest space hne
    refine ⟨hf.1, hf.2, ?_, prepare_mem _ _ _ _ _ _⟩
    unfold registry
    rw [hf.2]
  · simp [hijack_target_prepare, check_function_length_enough, bucket_of, HASH_SIZE,
      new_sym_hook, hash_add, template_return_addr]

/-- C16, evaluated: on the empty registry of `s0` the prepare of the function start `100`
succeeds and the prepare of the too short function at `200` returns `-1`. -/
theorem C16_prepare_success_iff_witness :
    Reachable env0 s0 ∧
    (hijack_target_prepare env0 true s0 100 900 0).1 = 0 ∧
    (hijack_target_prepare env0 true s0 200 900 0).1 = -1 :=
  ⟨Reachable.init mem0,
   (C16_prepare_success_iff env0 true s0 100 900 0 (Reachable.init mem0)).1.2
     ⟨by decide, Or.inl rfl, by simp [registered, mem_registry, s0, empty_table], rfl⟩,
   ((C16_prepare_success_iff env0 true s0 200 900 0 (Reachable.init mem0)).2.1
     (by decide)).1⟩

/-! ## The trampoline -/

theorem readBytes_congr (m1 m2 : Mem) (a n : Nat) (h : ∀ i, i < n → m1 (a + i) = m2 (a + i)) :
    readBytes m1 a n = readBytes m2 a n := by
  unfold readBytes
  apply List.map_congr_left
  intro i hi
  exact h i (List.mem_range.1 hi)

theorem readBytes_writeBytes_apart (m : Mem) (a n b : Nat) (bs : List Nat)
    (h : apart a n b bs.length) : readBytes (writeBytes m b bs) a n = readBytes m a n := by
  apply readBytes_congr
  intro i hi
  apply writeBytes_outside
  unfold apart at h
  omega

theorem template_return_addr_no_wrap (env : Env) (target : Nat) (hp : 0 < env.PTR_SIZE)
    (hle : env.PTR_SIZE ≤ env.HIJACK_SIZE)
    (hw : target + env.HIJACK_SIZE < 2 ^ (8 * env.PTR_SIZE)) :
    template_return_addr env target + env.PTR_SIZE = target + env.HIJACK_SIZE := by
  unfold template_return_addr
  generalize 2 ^ (8 * env.PTR_SIZE) = W at hw
  have h1 : env.PTR_SIZE % W = env.PTR_SIZE := Nat.mod_eq_of_lt (by omega)
  have h2 : env.HIJACK_SIZE + W - env.PTR_SIZE + target =
      (target + env.HIJACK_SIZE - env.PTR_SIZE) + W := by omega
  rw [h1, h2, Nat.add_mod_right, Nat.mod_eq_of_lt (by omega)]
  omega

theorem enable_pre_trampoline (env : Env) (s : State) (sa : sym_hook)
    (hsp : sa.hook_template_code_space ≠ 0)
    (hlen : sa.target_code.length = env.HIJACK_SIZE) :
    readBytes (enable_pre env s sa).mem sa.hook_template_code_space env.HIJACK_SIZE =
      sa.target_code ∧
    readBytes (enable_pre env s sa).mem (sa.hook_template_code_space + env.HIJACK_SIZE)
        (env.long_jmp sa.template_return_addr).length =
      env.long_jmp sa.template_return_addr := by
  unfold enable_pre
  rw [if_pos hsp]
  simp only [fill_hook_template_code_space]
  rw [List.take_of_length_le (le_of_eq hlen)]
  refine ⟨?_, readBytes_writeBytes _ _ _⟩
  rw [readBytes_writeBytes_apart _ _ _ _ _ (Or.inl (le_refl _))]
  exact readBytes_writeBytes_len _ _ _ _ hlen

theorem enable_disabled_mem (env : Env) (o : Outcome) (s : State) (target : Nat)
    (sa : sym_hook)
    (hf : hash_find target (s.all_hijack_targets (bucket_of env target)) = some sa)
    (he : sa.enabled = false) :
    (hijack_target_enable env o s target).2.mem =
      (stop_machine env o (enable_pre env s sa) target (source_code env sa.hook_dest)).2.mem ∧
    (hijack_target_enable env o s target).2.trace =
      (stop_machine env o (enable_pre env s sa) target (source_code env sa.hook_dest)).2.trace ∧
    (hijack_target_enable env o s target).1 =
      (stop_machine env o (enable_pre env s sa) target (source_code env sa.hook_dest)).1 := by
  rw [enable_disabled env o s target sa hf he]
  split
  · rename_i h0
    exact ⟨rfl, rfl, h0.symm⟩
  · exact ⟨rfl, rfl, rfl⟩

/-- C13, as stated, fails: on `env16` (sixteen-byte patches, eight-byte pointers) the
descriptor prepared for the target `100` with the trampoline region `500` gets the return
address `108`, the trampoline built by `hijack_target_enable` ends with the jump to `108`,
and `108` lies inside the patched region from `100` up to `116`. -/
theorem C13_counterexample :
    (hijack_target_prepare env16 true s0 100 900 500).1 = 0 ∧
    hash_find 100 (s16.all_hijack_targets (bucket_of env16 100)) =
      some (new_sym_hook env16 mem0 100 900 500) ∧
    (new_sym_hook env16 mem0 100 900 500).hook_template_code_space = 500 ∧
    (new_sym_hook env16 mem0 100 900 500).template_return_addr = 108 ∧
    readBytes (hijack_target_enable env16 ok0 s16 100).2.mem (500 + env16.HIJACK_SIZE) 2 =
      env16.long_jmp 108 ∧
    ¬ (108 < 100 ∨ 100 + env16.HIJACK_SIZE ≤ 108) := by
  decide

/-- C13, amended: for a descriptor of a reachable state that has a trampoline region and
is not enabled, `hijack_target_enable` attempts its patch in a memory where the region
holds the `HIJACK_SIZE` saved bytes of the descriptor followed, at region +
`HIJACK_SIZE`, by the jump sequence to the return address of the descriptor, and a
successful patch leaves that trampoline in place when the region does not overlap the
patched bytes. The return address is `target + HIJACK_SIZE - sizeof(void *)` modulo the
word size: when pointers are not longer than the patch and the sum does not wrap, it is
`sizeof(void *)` bytes before the end of the patched region, inside it. -/
theorem C13_trampoline (env : Env) (o : Outcome) (s : State) (target : Nat) (sa : sym_hook)
    (hr : Reachable env s)
    (hf : hash_find target (s.all_hijack_targets (bucket_of env target)) = some sa)
    (he : sa.enabled = false) (hsp : sa.hook_template_code_space ≠ 0) :
    readBytes (enable_pre env s sa).mem sa.hook_template_code_space env.HIJACK_SIZE =
      sa.target_code ∧
    readBytes (enable_pre env s sa).mem (sa.hook_template_code_space + env.HIJACK_SIZE)
        (env.long_jmp sa.template_return_addr).length =
      env.long_jmp sa.template_return_addr ∧
    (hijack_target_enable env o s target).2.mem =
      (stop_machine env o (enable_pre env s sa) target (source_code env sa.hook_dest)).2.mem ∧
    (o.ok →
      apart sa.hook_template_code_space
        (env.HIJACK_SIZE + (env.long_jmp sa.template_return_addr).length)
        target env.HIJACK_SIZE →
      readBytes (hijack_target_enable env o s target).2.mem sa.hook_template_code_space
          env.HIJACK_SIZE = sa.target_code ∧
      readBytes (hijack_target_enable env o s target).2.mem
          (sa.hook_template_code_space + env.HIJACK_SIZE)
          (env.long_jmp sa.template_return_addr).length =
        env.long_jmp sa.template_return_addr) ∧
    sa.template_return_addr = template_return_addr env target ∧
    (0 < env.PTR_SIZE → env.PTR_SIZE ≤ env.HIJACK_SIZE →
      target + env.HIJACK_SIZE < 2 ^ (8 * env.PTR_SIZE) →
      sa.template_return_addr + env.PTR_SIZE = target + env.HIJACK_SIZE ∧
      target ≤ sa.template_return_addr ∧
      sa.template_return_addr < target + env.HIJACK_SIZE) := by
  have hwf := (hr.wf (bucket_of env target)).1 sa (hash_find_some hf).1
  have htgt := (hash_find_some hf).2
  have hlen := hwf.2.1
  have hret : sa.template_return_addr = template_return_addr env target := by
    rw [hwf.2.2.2, htgt]
  have htr := enable_pre_trampoline env s sa hsp hlen
  have hmem := (enable_disabled_mem env o s target sa hf he).1
  refine ⟨htr.1, htr.2, hmem, fun hok hap => ?_, hret, fun hp hle hw => ?_⟩
  · rw [hmem, stop_machine_ok env o _ _ _ hok]
    simp only
    have hsl : ((source_code env sa.hook_dest).take env.HIJACK_SIZE).length =
        env.HIJACK_SIZE := by
      rw [List.length_take, source_code_length, Nat.min_self]
    unfold apart at hap
    constructor
    · rw [readBytes_writeBytes_apart _ _ _ _ _ (by unfold apart; omega)]
      exact htr.1
    · rw [readBytes_writeBytes_apart _ _ _ _ _ (by unfold apart; omega)]
      exact htr.2
  · have h := template_return_addr_no_wrap env target hp hle hw
    rw [hret]
    omega

/-- C13, amended, evaluated on the descriptor prepared in `s16`: the trampoline at `500`
holds the sixteen saved bytes and then the jump to `108 = 100 + 16 - 8`. -/
theorem C13_trampoline_witness :
    Reachable env16 s16 ∧
    hash_find 100 (s16.all_hijack_targets (bucket_of env16 100)) =
      some (new_sym_hook env16 mem0 100 900 500) ∧
    readBytes (hijack_target_enable env16 ok0 s16 100).2.mem 500 16 =
      (new_sym_hook env16 mem0 100 900 500).target_code ∧
    (new_sym_hook env16 mem0 100 900 500).template_return_addr + 8 = 100 + 16 :=
  ⟨Reachable.prepare true 100 900 500 (Reachable.init mem0), by decide,
   ((C13_trampoline env16 ok0 s16 100 (new_sym_hook env16 mem0 100 900 500)
      (Reachable.prepare true 100 900 500 (Reachable.init mem0)) (by decide) rfl
      (by decide)).2.2.2.1 (by decide) (by decide)).1,
   ((C13_trampoline env16 ok0 s16 100 (new_sym_hook env16 mem0 100 900 500)
      (Reachable.prepare true 100 900 500 (Reachable.init mem0)) (by decide) rfl
      (by decide)).2.2.2.2.2 (by decide) (by decide) (by decide)).1⟩

/-! ## A patch attempt that fails -/

theorem writerAtomic_contained {env : Env} (h : WriterAtomic env) : WriterContained env := by
  intro m dest source a _
  rw [h]

theorem stop_machine_fail_mem (env : Env) (o : Outcome) (s : State) (dest : Nat)
    (source : List Nat) (hfail : ¬ o.ok)
    (h : o.pause ≠ 0 ∨ o.active ≠ 0 ∨ WriterAtomic env) :
    (stop_machine env o s dest source).2.mem = s.mem := by
  unfold stop_machine do_hijack_target hook_write_range
  by_cases hp : o.pause = 0
  · by_cases ha : o.active = 0
    · by_cases hw : o.write = 0
      · exact absurd ⟨hp, ha, hw⟩ hfail
      · rcases h with h | h | h
        · exact absurd hp h
        · exact absurd ha h
        · simp [hp, ha, hw, State.log, h _ _ _]
    · simp [hp, ha, State.log]
  · simp [hp, State.log]

theorem stop_machine_attempts (env : Env) (o : Outcome) (s : State) (dest : Nat)
    (source : List Nat) :
    patch_attempts (stop_machine env o s dest source).2.trace = patch_attempts s.trace + 1 := by
  unfold stop_machine do_hijack_target hook_write_range
  by_cases hp : o.pause = 0 <;> by_cases ha : o.active = 0 <;> by_cases hw : o.write = 0 <;>
    simp [hp, ha, hw, State.log, patch_attempts, List.countP_append, List.countP_cons,
      is_patch_attempt]

theorem enable_pre_attempts (env : Env) (s : State) (sa : sym_hook) :
    patch_attempts (enable_pre env s sa).trace = patch_attempts s.trace := by
  unfold enable_pre
  split
  · simp [fill_hook_template_code_space, patch_attempts, List.countP_append, List.countP_cons,
      is_patch_attempt]
  · rfl

theorem enable_pre_mem_apart (env : Env) (s : State) (sa : sym_hook) (a n : Nat)
    (h : sa.hook_template_code_space = 0 ∨
      apart sa.hook_template_code_space
        (env.HIJACK_SIZE + (env.long_jmp sa.template_return_addr).length) a n) :
    readBytes (enable_pre env s sa).mem a n = readBytes s.mem a n := by
  unfold enable_pre
  by_cases hsp : sa.hook_template_code_space = 0
  · rw [if_neg (not_not.2 hsp)]
  · rw [if_pos hsp]
    rcases h with h | h
    · exact absurd h hsp
    · simp only [fill_hook_template_code_space]
      have hl : (sa.target_code.take env.HIJACK_SIZE).length ≤ env.HIJACK_SIZE := by
        rw [List.length_take]
        exact Nat.min_le_left _ _
      unfold apart at h
      rw [readBytes_writeBytes_apart _ _ _ _ _ (by unfold apart; omega),
        readBytes_writeBytes_apart _ _ _ _ _ (by unfold apart; omega)]

/-- C17, as stated, fails: on `env0` the target `100` is prepared with a trampoline
region at `101`; the enable meets a busy target, returns `-1` and leaves the descriptor
disabled, yet the four bytes at `100` have changed, because the trampoline is filled
before the patch is attempted. -/
theorem C17_counterexample :
    (hijack_target_prepare env0 true s0 100 900 101).1 = 0 ∧
    (hijack_target_enable env0 busy0 s1t 100).1 = -1 ∧
    readBytes s1t.mem 100 env0.HIJACK_SIZE = [2, 3, 4, 5] ∧
    readBytes (hijack_target_enable env0 busy0 s1t 100).2.mem 100 env0.HIJACK_SIZE =
      [2, 2, 3, 4] ∧
    ¬ (readBytes (hijack_target_enable env0 busy0 s1t 100).2.mem 100 env0.HIJACK_SIZE =
        readBytes s1t.mem 100 env0.HIJACK_SIZE) := by
  decide

/-- C17, amended: when the patch attempt of `hijack_target_enable` on a found, disabled
descriptor fails, the call returns the non-zero value of `stop_machine` after exactly one
patch attempt, the descriptor found afterwards is the same with `enabled = false`, and
the table is unchanged; the `HIJACK_SIZE` bytes at the target are unchanged when the
descriptor has no trampoline region or one that does not overlap them (the failure
coming from the barrier or the activeness check, or from a writer that writes nothing
when it fails). A failing `hijack_target_disable` on an enabled descriptor likewise
returns the non-zero value after one attempt and leaves table and flag as they were,
whatever `need_remove` is. -/
theorem C17_patch_failure (env : Env) (o : Outcome) (s : State) (target : Nat)
    (sa : sym_hook)
    (hf : hash_find target (s.all_hijack_targets (bucket_of env target)) = some sa)
    (hfail : ¬ o.ok) :
    (sa.enabled = false →
      (hijack_target_enable env o s target).1 =
        (stop_machine env o (enable_pre env s sa) target (source_code env sa.hook_dest)).1 ∧
      (hijack_target_enable env o s target).1 ≠ 0 ∧
      patch_attempts (hijack_target_enable env o s target).2.trace =
        patch_attempts s.trace + 1 ∧
      (hijack_target_enable env o s target).2.all_hijack_targets = s.all_hijack_targets ∧
      hash_find target
          ((hijack_target_enable env o s target).2.all_hijack_targets (bucket_of env target)) =
        some sa ∧
      ((sa.hook_template_code_space = 0 ∨
          apart sa.hook_template_code_space
            (env.HIJACK_SIZE + (env.long_jmp sa.template_return_addr).length)
            target env.HIJACK_SIZE) →
        (o.pause ≠ 0 ∨ o.active ≠ 0 ∨ WriterAtomic env) →
        readBytes (hijack_target_enable env o s target).2.mem target env.HIJACK_SIZE =
          readBytes s.mem target env.HIJACK_SIZE)) ∧
    (sa.enabled = true → ∀ need_remove : Bool,
      (hijack_target_disable env o s target need_remove).1 =
        (stop_machine env o s target sa.target_code).1 ∧
      (hijack_target_disable env o s target need_remove).1 ≠ 0 ∧
      patch_attempts (hijack_target_disable env o s target need_remove).2.trace =
        patch_attempts s.trace + 1 ∧
      (hijack_target_disable env o s target need_remove).2.all_hijack_targets =
        s.all_hijack_targets ∧
      hash_find target
          ((hijack_target_disable env o s target need_remove).2.all_hijack_targets
            (bucket_of env target)) = some sa ∧
      ((o.pause ≠ 0 ∨ o.active ≠ 0 ∨ WriterAtomic env) →
        (hijack_target_disable env o s target need_remove).2.mem = s.mem)) := by
  constructor
  · intro he
    have hne : ¬ (stop_machine env o (enable_pre env s sa) target
        (source_code env sa.hook_dest)).1 = 0 := by
      rw [stop_machine_zero_iff]; exact hfail
    have heq := enable_disabled env o s target sa hf he
    rw [if_neg hne] at heq
    rw [heq]
    have htab : (stop_machine env o (enable_pre env s sa) target
        (source_code env sa.hook_dest)).2.all_hijack_targets = s.all_hijack_targets := by
      rw [stop_machine_table, enable_pre_table]
    refine ⟨rfl, hne, ?_, htab, ?_, fun hap hw => ?_⟩
    · rw [stop_machine_attempts, enable_pre_attempts]
    · rw [htab]; exact hf
    · rw [stop_machine_fail_mem env o _ _ _ hfail hw]
      exact enable_pre_mem_apart env s sa target env.HIJACK_SIZE hap
  · intro he need_remove
    have hne : ¬ (stop_machine env o s target sa.target_code).1 = 0 := by
      rw [stop_machine_zero_iff]; exact hfail
    have heq := disable_enabled env o s target need_remove sa hf he
    rw [if_neg hne] at heq
    rw [heq]
    refine ⟨rfl, hne, stop_machine_attempts _ _ _ _ _, stop_machine_table _ _ _ _ _, ?_,
      fun hw => stop_machine_fail_mem env o _ _ _ hfail hw⟩
    simp only [stop_machine_table]
    exact hf

/-- C17, amended, evaluated: the prepared target `100` of `s1` (no trampoline) meets a
busy target on enable, and the enabled target `100` of `s2` meets one on disable. -/
theorem C17_patch_failure_witness :
    hash_find 100 (s1.all_hijack_targets (bucket_of env0 100)) = some sa100 ∧
    ¬ busy0.ok ∧
    (hijack_target_enable env0 busy0 s1 100).1 ≠ 0 ∧
    readBytes (hijack_target_enable env0 busy0 s1 100).2.mem 100 env0.HIJACK_SIZE =
      readBytes s1.mem 100 env0.HIJACK_SIZE ∧
    (hijack_target_disable env0 busy0 s2 100 true).1 ≠ 0 ∧
    (hijack_target_disable env0 busy0 s2 100 true).2.all_hijack_targets =
      s2.all_hijack_targets :=
  ⟨by decide, by decide,
   ((C17_patch_failure env0 busy0 s1 100 sa100 (by decide) (by decide)).1 rfl).2.1,
   ((C17_patch_failure env0 busy0 s1 100 sa100 (by decide) (by decide)).1 rfl).2.2.2.2.2
     (Or.inl rfl) (Or.inr (Or.inl (by decide))),
   ((C17_patch_failure env0 busy0 s2 100 { sa100 with enabled := true } (by decide)
     (by decide)).2 rfl true).2.1,
   ((C17_patch_failure env0 busy0 s2 100 { sa100 with enabled := true } (by decide)
     (by decide)).2 rfl true).2.2.2.1⟩

/-! ## The frame of enable and disable -/

theorem chain_modify_filter_ne (t u : Nat) (v : Bool) (htu : u ≠ t) (c : List sym_hook) :
    (chain_modify t (fun x => { x with enabled := v }) c).filter
        (fun sa => decide (sa.target = u)) =
      c.filter (fun sa => decide (sa.target = u)) := by
  induction c with
  | nil => rfl
  | cons x rest ih =>
    by_cases hx : x.target = t
    · have hxu : ¬ x.target = u := fun h => htu (h.symm.trans hx)
      simp [chain_modify, hx, List.filter_cons, hxu, htu.symm]
    · simp only [chain_modify, hx, if_false, List.filter_cons, ih]

theorem chain_del_filter_ne (t u : Nat) (htu : u ≠ t) (c : List sym_hook) :
    (chain_del t c).filter (fun sa => decide (sa.target = u)) =
      c.filter (fun sa => decide (sa.target = u)) := by
  induction c with
  | nil => rfl
  | cons x rest ih =>
    by_cases hx : x.target = t
    · have hxu : ¬ x.target = u := fun h => htu (h.symm.trans hx)
      simp [chain_del, hx, List.filter_cons, htu.symm]
    · simp only [chain_del, hx, if_false, List.filter_cons, ih]

theorem set_enabled_filter_ne (env : Env) (s : State) (t u : Nat) (v : Bool) (htu : u ≠ t)
    (b : Nat) :
    ((set_enabled env s t v).all_hijack_targets b).filter (fun sa => decide (sa.target = u)) =
      (s.all_hijack_targets b).filter (fun sa => decide (sa.target = u)) := by
  unfold set_enabled
  simp only
  by_cases hb : b = bucket_of env t
  · subst hb
    rw [set_bucket_same, chain_modify_filter_ne t u v htu]
  · rw [set_bucket_other _ _ _ hb]

theorem remove_if_needed_filter_ne (env : Env) (need_remove : Bool) (ret : Int) (s : State)
    (sa : sym_hook) (t u : Nat) (htu : u ≠ t) (b : Nat) :
    ((remove_if_needed env need_remove ret s sa t).all_hijack_targets b).filter
        (fun x => decide (x.target = u)) =
      (s.all_hijack_targets b).filter (fun x => decide (x.target = u)) := by
  unfold remove_if_needed
  split
  · simp only [State.log]
    by_cases hb : b = bucket_of env t
    · subst hb
      rw [set_bucket_same, chain_del_filter_ne t u htu]
    · rw [set_bucket_other _ _ _ hb]
  · rfl

theorem remove_if_needed_mem (env : Env) (need_remove : Bool) (ret : Int) (s : State)
    (sa : sym_hook) (t : Nat) : (remove_if_needed env need_remove ret s sa t).mem = s.mem := by
  unfold remove_if_needed
  split <;> rfl

theorem stop_machine_mem_outside (env : Env) (o : Outcome) (s : State) (dest : Nat)
    (source : List Nat) (hw : WriterContained env) (a : Nat)
    (ha : a < dest ∨ dest + env.HIJACK_SIZE ≤ a) :
    (stop_machine env o s dest source).2.mem a = s.mem a := by
  unfold stop_machine do_hijack_target hook_write_range
  by_cases hp : o.pause = 0
  · by_cases hac : o.active = 0
    · by_cases hwr : o.write = 0
      · simp only [hp, hac, hwr, if_true, State.log]
        apply writeBytes_outside
        have : (source.take env.HIJACK_SIZE).length ≤ env.HIJACK_SIZE := by
          rw [List.length_take]
          exact Nat.min_le_left _ _
        omega
      · simp only [hp, hac, hwr, if_true, if_false, State.log]
        exact hw _ _ _ _ ha
    · simp [hp, hac, State.log]
  · simp [hp, State.log]

theorem enable_pre_mem_outside (env : Env) (s : State) (sa : sym_hook) (a : Nat)
    (ha : sa.hook_template_code_space ≠ 0 →
      a < sa.hook_template_code_space ∨
      sa.hook_template_code_space + env.HIJACK_SIZE +
        (env.long_jmp sa.template_return_addr).length ≤ a) :
    (enable_pre env s sa).mem a = s.mem a := by
  unfold enable_pre
  by_cases hsp : sa.hook_template_code_space = 0
  · rw [if_neg (not_not.2 hsp)]
  · rw [if_pos hsp]
    have h := ha hsp
    simp only [fill_hook_template_code_space]
    have hl : (sa.target_code.take env.HIJACK_SIZE).length ≤ env.HIJACK_SIZE := by
      rw [List.length_take]
      exact Nat.min_le_left _ _
    rw [writeBytes_outside _ _ _ _ (by omega), writeBytes_outside _ _ _ _ (by omega)]

theorem enable_filter_ne (env : Env) (o : Outcome) (s : State) (t u : Nat) (htu : u ≠ t)
    (b : Nat) :
    ((hijack_target_enable env o s t).2.all_hijack_targets b).filter
        (fun sa => decide (sa.target = u)) =
      (s.all_hijack_targets b).filter (fun sa => decide (sa.target = u)) := by
  cases hf : hash_find t (s.all_hijack_targets (bucket_of env t)) with
  | none => rw [enable_not_found env o s t hf]; rfl
  | some sa =>
    cases he : sa.enabled with
    | true => rw [enable_enabled env o s t sa hf he]; rfl
    | false =>
      rw [enable_disabled env o s t sa hf he]
      split
      · rw [set_enabled_filter_ne env _ t u true htu b, stop_machine_table, enable_pre_table]
      · rw [stop_machine_table, enable_pre_table]

theorem disable_filter_ne (env : Env) (o : Outcome) (s : State) (t u : Nat) (htu : u ≠ t)
    (need_remove : Bool) (b : Nat) :
    ((hijack_target_disable env o s t need_remove).2.all_hijack_targets b).filter
        (fun sa => decide (sa.target = u)) =
      (s.all_hijack_targets b).filter (fun sa => decide (sa.target = u)) := by
  cases hf : hash_find t (s.all_hijack_targets (bucket_of env t)) with
  | none => rw [disable_not_found env o s t need_remove hf]; rfl
  | some sa =>
    cases he : sa.enabled with
    | false =>
      rw [disable_disabled env o s t need_remove sa hf he,
        remove_if_needed_filter_ne env need_remove 0 _ sa t u htu b]
      rfl
    | true =>
      rw [disable_enabled env o s t need_remove sa hf he]
      split
      · rw [remove_if_needed_filter_ne env need_remove 0 _ _ t u htu b,
          set_enabled_filter_ne env _ t u false htu b, stop_machine_table]
      · simp only [stop_machine_table]

theorem registry_filter_congr (env : Env) (s1 s2 : State) (p : sym_hook → Bool)
    (h : ∀ b, (s1.all_hijack_targets b).filter p = (s2.all_hijack_targets b).filter p) :
    (registry env s1).filter p = (registry env s2).filter p := by
  unfold registry hash_for_each
  rw [List.filter_flatMap, List.filter_flatMap]
  exact List.flatMap_congr (fun b _ => h b)

/-- C19: for distinct targets `t` and `u`, `hijack_target_enable(t)` and
`hijack_target_disable(t, need_remove)` leave the descriptors of `u` as they are, in
every chain and so in the registry: none is changed, removed or added. With a writer
that touches only the `HIJACK_SIZE` bytes at its destination, every address outside the
`HIJACK_SIZE` bytes at `t` and, for enable of a disabled descriptor with a trampoline
region, outside that region (the saved bytes and the jump behind them) keeps its byte. -/
theorem C19_frame (env : Env) (o : Outcome) (s : State) (t u : Nat) (htu : u ≠ t) :
    (∀ b, ((hijack_target_enable env o s t).2.all_hijack_targets b).filter
          (fun sa => decide (sa.target = u)) =
        (s.all_hijack_targets b).filter (fun sa => decide (sa.target = u))) ∧
    (∀ (need_remove : Bool) (b : Nat),
      ((hijack_target_disable env o s t need_remove).2.all_hijack_targets b).filter
          (fun sa => decide (sa.target = u)) =
        (s.all_hijack_targets b).filter (fun sa => decide (sa.target = u))) ∧
    (registry env (hijack_target_enable env o s t).2).filter
        (fun sa => decide (sa.target = u)) =
      (registry env s).filter (fun sa => decide (sa.target = u)) ∧
    (∀ need_remove : Bool,
      (registry env (hijack_target_disable env o s t need_remove).2).filter
          (fun sa => decide (sa.target = u)) =
        (registry env s).filter (fun sa => decide (sa.target = u))) ∧
    (WriterContained env → ∀ a : Nat, (a < t ∨ t + env.HIJACK_SIZE ≤ a) →
      (∀ sa, hash_find t (s.all_hijack_targets (bucket_of env t)) = some sa →
        sa.enabled = false → sa.hook_template_code_space ≠ 0 →
        a < sa.hook_template_code_space ∨
        sa.hook_template_code_space + env.HIJACK_SIZE +
          (env.long_jmp sa.template_return_addr).length ≤ a) →
      (hijack_target_enable env o s t).2.mem a = s.mem a) ∧
    (WriterContained env → ∀ (need_remove : Bool) (a : Nat),
      (a < t ∨ t + env.HIJACK_SIZE ≤ a) →
      (hijack_target_disable env o s t need_remove).2.mem a = s.mem a) := by
  refine ⟨enable_filter_ne env o s t u htu, fun nr b => disable_filter_ne env o s t u htu nr b,
    registry_filter_congr env _ _ _ (enable_filter_ne env o s t u htu),
    fun nr => registry_filter_congr env _ _ _ (fun b => disable_filter_ne env o s t u htu nr b),
    fun hw a ha htr => ?_, fun hw nr a ha => ?_⟩
  · cases hf : hash_find t (s.all_hijack_targets (bucket_of env t)) with
    | none => rw [enable_not_found env o s t hf]; rfl
    | some sa =>
      cases he : sa.enabled with
      | true => rw [enable_enabled env o s t sa hf he]; rfl
      | false =>
        rw [(enable_disabled_mem env o s t sa hf he).1, stop_machine_mem_outside env o _ _ _ hw a ha]
        exact enable_pre_mem_outside env s sa a (htr sa hf he)
  · cases hf : hash_find t (s.all_hijack_targets (bucket_of env t)) with
    | none => rw [disable_not_found env o s t nr hf]; rfl
    | some sa =>
      cases he : sa.enabled with
      | false =>
        rw [disable_disabled env o s t nr sa hf he, remove_if_needed_mem]
        rfl
      | true =>
        rw [disable_enabled env o s t nr sa hf he]
        split
        · rw [remove_if_needed_mem]
          simp only [set_enabled]
          exact stop_machine_mem_outside env o _ _ _ hw a ha
        · exact stop_machine_mem_outside env o _ _ _ hw a ha

/-- C19, evaluated: enabling the target `100` of `s1` leaves the descriptors of the
target `300` and the byte at address `300` as they were. -/
theorem C19_frame_witness :
    (300 : Nat) ≠ 100 ∧
    (registry env0 (hijack_target_enable env0 ok0 s1 100).2).filter
        (fun sa => decide (sa.target = 300)) =
      (registry env0 s1).filter (fun sa => decide (sa.target = 300)) ∧
    (hijack_target_enable env0 ok0 s1 100).2.mem 300 = s1.mem 300 :=
  ⟨by decide, (C19_frame env0 ok0 s1 100 300 (by decide)).2.2.1,
   (C19_frame env0 ok0 s1 100 300 (by decide)).2.2.2.2.1
     (fun _ _ _ _ _ => rfl) 300 (Or.inr (by decide))
     (fun sa hsa _ hsp => absurd (by
        have h : sa = sa100 := Option.some.inj (hsa.symm.trans (by decide))
        rw [h]; rfl) hsp)⟩

/-! ## Two concurrent prepares of one target -/

theorem prepare_eq_phases (env : Env) (kmalloc_ok : Bool) (s : State)
    (target hook_dest space : Nat) :
    hijack_target_prepare env kmalloc_ok s target hook_dest space =
      match prepare_check env s target space with
      | some r => r
      | none => prepare_insert env kmalloc_ok s target hook_dest space := by
  unfold hijack_target_prepare prepare_check prepare_insert
  by_cases h1 : check_function_length_enough env target = false
  · simp [h1]
  · by_cases h2 : space ≠ 0 ∧ env.check_target_can_hijack s.mem target = false
    · simp [h1, h2]
    · by_cases h3 : (hash_find target (s.all_hijack_targets (bucket_of env target))).isSome
      · simp [h1, h2, h3]
      · simp [h1, h2, h3]

theorem caller_alone (env : Env) (c : Caller) (s : State) :
    caller_step env c (caller_step env c Phase.start s).1 (caller_step env c Phase.start s).2 =
      (Phase.done (hijack_target_prepare env c.kmalloc_ok s c.target c.hook_dest c.space).1,
        (hijack_target_prepare env c.kmalloc_ok s c.target c.hook_dest c.space).2) := by
  rw [prepare_eq_phases]
  cases h : prepare_check env s c.target c.space with
  | none => simp [caller_step, h]
  | some r => simp [caller_step, h]

/-- C15: the code does not re-check under the write lock. On `env0` with an empty
registry, two callers prepare the target `100`; when both read-locked checks run before
both write-locked insertions, both calls return `0` and the registry holds two
descriptors for `100`, whereas one call after the other gives `0`, then `-1`, and one
descriptor. -/
theorem C15_prepare_race :
    (run2 env0 callerA callerB [true, false, true, false]
        (Phase.start, Phase.start, s0)).1 = Phase.done 0 ∧
    (run2 env0 callerA callerB [true, false, true, false]
        (Phase.start, Phase.start, s0)).2.1 = Phase.done 0 ∧
    ((registry env0 (run2 env0 callerA callerB [true, false, true, false]
        (Phase.start, Phase.start, s0)).2.2).filter
      (fun sa => decide (sa.target = 100))).length = 2 ∧
    (run2 env0 callerA callerB [true, true, false, false]
        (Phase.start, Phase.start, s0)).1 = Phase.done 0 ∧
    (run2 env0 callerA callerB [true, true, false, false]
        (Phase.start, Phase.start, s0)).2.1 = Phase.done (-1) ∧
    ((registry env0 (run2 env0 callerA callerB [true, true, false, false]
        (Phase.start, Phase.start, s0)).2.2).filter
      (fun sa => decide (sa.target = 100))).length = 1 := by
  decide

/-! ## The loop of `hijack_target_disable_all` -/

theorem chain_single (env : Env) (nr : Bool) (sched : Nat → Outcome) (sa : sym_hook)
    (s : State) (k : Nat) (r : Bool) :
    disable_all_chain env nr sched [sa] (s, k, r) =
      if sa.enabled = true then
        if (stop_machine env (sched k) s sa.target sa.target_code).1 ≠ 0 then
          ([sa], ((stop_machine env (sched k) s sa.target sa.target_code).2, k + 1, true))
        else if nr = true then
          ([], ((stop_machine env (sched k) s sa.target sa.target_code).2.log
                  (Event.kfree { sa with enabled := false }), k + 1, r))
        else
          ([{ sa with enabled := false }],
            ((stop_machine env (sched k) s sa.target sa.target_code).2, k + 1, r))
      else if nr = true then ([], (s.log (Event.kfree sa), k, r))
      else ([sa], (s, k, r)) := by
  unfold disable_all_chain
  by_cases he : sa.enabled = true
  · rw [if_pos he, if_pos he]
    by_cases hr : (stop_machine env (sched k) s sa.target sa.target_code).1 ≠ 0
    · rw [if_pos hr, if_pos hr]
      rfl
    · rw [if_neg hr, if_neg hr]
      by_cases hn : nr = true
      · rw [if_pos hn, if_pos hn]
        rfl
      · rw [if_neg hn, if_neg hn]
        rfl
  · rw [if_neg he, if_neg he]
    by_cases hn : nr = true
    · rw [if_pos hn, if_pos hn]
      rfl
    · rw [if_neg hn, if_neg hn]
      rfl

theorem chain_cons (env : Env) (nr : Bool) (sched : Nat → Outcome) (sa : sym_hook)
    (rest : List sym_hook) (c : State × Nat × Bool) :
    disable_all_chain env nr sched (sa :: rest) c =
      ((disable_all_chain env nr sched [sa] c).1 ++
          (disable_all_chain env nr sched rest (disable_all_chain env nr sched [sa] c).2).1,
        (disable_all_chain env nr sched rest (disable_all_chain env nr sched [sa] c).2).2) := by
  obtain ⟨s, k, r⟩ := c
  rw [chain_single]
  conv_lhs => unfold disable_all_chain
  by_cases he : sa.enabled = true
  · rw [if_pos he, if_pos he]
    by_cases hr : (stop_machine env (sched k) s sa.target sa.target_code).1 ≠ 0
    · rw [if_pos hr, if_pos hr]
      rfl
    · rw [if_neg hr, if_neg hr]
      by_cases hn : nr = true
      · rw [if_pos hn, if_pos hn]
        rfl
      · rw [if_neg hn, if_neg hn]
        rfl
  · rw [if_neg he, if_neg he]
    by_cases hn : nr = true
    · rw [if_pos hn, if_pos hn]
      rfl
    · rw [if_neg hn, if_neg hn]
      rfl

theorem chain_append (env : Env) (nr : Bool) (sched : Nat → Outcome) (l1 l2 : List sym_hook) :
    ∀ c : State × Nat × Bool,
      disable_all_chain env nr sched (l1 ++ l2) c =
        ((disable_all_chain env nr sched l1 c).1 ++
            (disable_all_chain env nr sched l2 (disable_all_chain env nr sched l1 c).2).1,
          (disable_all_chain env nr sched l2 (disable_all_chain env nr sched l1 c).2).2) := by
  induction l1 with
  | nil =>
    intro c
    simp [disable_all_chain]
  | cons sa rest ih =>
    intro c
    rw [List.cons_append, chain_cons, ih, chain_cons env nr sched sa rest]
    simp [List.append_assoc]

theorem stop_machine_congr (env : Env) (o : Outcome) (s1 s2 : State) (dest : Nat)
    (source : List Nat) (hm : s1.mem = s2.mem) (ht : s1.trace = s2.trace) :
    (stop_machine env o s1 dest source).1 = (stop_machine env o s2 dest source).1 ∧
    (stop_machine env o s1 dest source).2.mem = (stop_machine env o s2 dest source).2.mem ∧
    (stop_machine env o s1 dest source).2.trace =
      (stop_machine env o s2 dest source).2.trace := by
  unfold stop_machine do_hijack_target hook_write_range
  by_cases hp : o.pause = 0 <;> by_cases ha : o.active = 0 <;> by_cases hw : o.write = 0 <;>
    simp [hp, ha, hw, State.log, hm, ht]

theorem chain_congr (env : Env) (nr : Bool) (sched : Nat → Outcome) (l : List sym_hook) :
    ∀ (s1 s2 : State) (k : Nat) (r : Bool), s1.mem = s2.mem → s1.trace = s2.trace →
      (disable_all_chain env nr sched l (s1, k, r)).1 =
        (disable_all_chain env nr sched l (s2, k, r)).1 ∧
      (disable_all_chain env nr sched l (s1, k, r)).2.1.mem =
        (disable_all_chain env nr sched l (s2, k, r)).2.1.mem ∧
      (disable_all_chain env nr sched l (s1, k, r)).2.1.trace =
        (disable_all_chain env nr sched l (s2, k, r)).2.1.trace ∧
      (disable_all_chain env nr sched l (s1, k, r)).2.2 =
        (disable_all_chain env nr sched l (s2, k, r)).2.2 := by
  induction l with
  | nil =>
    intro s1 s2 k r hm ht
    exact ⟨rfl, hm, ht, rfl⟩
  | cons sa rest ih =>
    intro s1 s2 k r hm ht
    obtain ⟨h1, h2, h3⟩ := stop_machine_congr env (sched k) s1 s2 sa.target sa.target_code hm ht
    rw [chain_cons, chain_cons env nr sched sa rest (s2, k, r), chain_single, chain_single]
    by_cases he : sa.enabled = true
    · rw [if_pos he, if_pos he, ← h1]
      by_cases hr : (stop_machine env (sched k) s1 sa.target sa.target_code).1 ≠ 0
      · rw [if_pos hr, if_pos hr]
        have := ih _ _ (k + 1) true h2 h3
        simp only
        exact ⟨by rw [this.1], this.2.1, this.2.2.1, this.2.2.2⟩
      · rw [if_neg hr, if_neg hr]
        by_cases hn : nr = true
        · rw [if_pos hn, if_pos hn]
          have := ih ((stop_machine env (sched k) s1 sa.target sa.target_code).2.log
              (Event.kfree { sa with enabled := false }))
            ((stop_machine env (sched k) s2 sa.target sa.target_code).2.log
              (Event.kfree { sa with enabled := false })) (k + 1) r h2
            (by simp [State.log, h3])
          simp only
          exact ⟨by rw [this.1], this.2.1, this.2.2.1, this.2.2.2⟩
        · rw [if_neg hn, if_neg hn]
          have := ih _ _ (k + 1) r h2 h3
          simp only
          exact ⟨by rw [this.1], this.2.1, this.2.2.1, this.2.2.2⟩
    · rw [if_neg he, if_neg he]
      by_cases hn : nr = true
      · rw [if_pos hn, if_pos hn]
        have := ih (s1.log (Event.kfree sa)) (s2.log (Event.kfree sa)) k r hm
          (by simp [State.log, ht])
        simp only
        exact ⟨by rw [this.1], this.2.1, this.2.2.1, this.2.2.2⟩
      · rw [if_neg hn, if_neg hn]
        have := ih _ _ k r hm ht
        simp only
        exact ⟨by rw [this.1], this.2.1, this.2.2.1, this.2.2.2⟩

theorem disable_all_fold_spec (env : Env) (nr : Bool) (sched : Nat → Outcome)
    (bs : List Nat) :
    bs.Nodup → ∀ c : State × Nat × Bool,
      bs.flatMap (bs.foldl (disable_all_bucket env nr sched) c).1.all_hijack_targets =
        (disable_all_chain env nr sched (bs.flatMap c.1.all_hijack_targets) c).1 ∧
      (bs.foldl (disable_all_bucket env nr sched) c).1.mem =
        (disable_all_chain env nr sched (bs.flatMap c.1.all_hijack_targets) c).2.1.mem ∧
      (bs.foldl (disable_all_bucket env nr sched) c).1.trace =
        (disable_all_chain env nr sched (bs.flatMap c.1.all_hijack_targets) c).2.1.trace ∧
      (bs.foldl (disable_all_bucket env nr sched) c).2 =
        (disable_all_chain env nr sched (bs.flatMap c.1.all_hijack_targets) c).2.2 ∧
      (∀ b, b ∉ bs →
        (bs.foldl (disable_all_bucket env nr sched) c).1.all_hijack_targets b =
          c.1.all_hijack_targets b) ∧
      (∀ b, b ∈ bs → ∃ c1 : State × Nat × Bool,
        (bs.foldl (disable_all_bucket env nr sched) c).1.all_hijack_targets b =
          (disable_all_chain env nr sched (c.1.all_hijack_targets b) c1).1) := by
  induction bs with
  | nil =>
    intro _ c
    refine ⟨rfl, rfl, rfl, rfl, fun _ _ => rfl, fun b hb => ?_⟩
    simp at hb
  | cons b0 rest ih =>
    intro hnd c
    rw [List.nodup_cons] at hnd
    obtain ⟨s, k, r⟩ := c
    have hspec := disable_all_chain_spec env nr sched (s.all_hijack_targets b0) (s, k, r)
    have htab1 : (disable_all_bucket env nr sched (s, k, r) b0).1.all_hijack_targets =
        set_bucket s.all_hijack_targets b0
          (disable_all_chain env nr sched (s.all_hijack_targets b0) (s, k, r)).1 := by
      simp only [disable_all_bucket]
      rw [hspec.1]
    have hrestflat : rest.flatMap (disable_all_bucket env nr sched (s, k, r) b0).1.all_hijack_targets =
        rest.flatMap s.all_hijack_targets := by
      apply List.flatMap_congr
      intro j hj
      rw [htab1]
      exact set_bucket_other _ _ _ (fun h => hnd.1 (h ▸ hj))
    obtain ⟨i1, i2, i3, i4, i5, i6⟩ := ih hnd.2 (disable_all_bucket env nr sched (s, k, r) b0)
    rw [hrestflat] at i1 i2 i3 i4
    have hc := chain_congr env nr sched (rest.flatMap s.all_hijack_targets)
      (disable_all_bucket env nr sched (s, k, r) b0).1
      (disable_all_chain env nr sched (s.all_hijack_targets b0) (s, k, r)).2.1
      (disable_all_chain env nr sched (s.all_hijack_targets b0) (s, k, r)).2.2.1
      (disable_all_chain env nr sched (s.all_hijack_targets b0) (s, k, r)).2.2.2 rfl rfl
    have j1 := i1.trans hc.1
    have j2 := i2.trans hc.2.1
    have j3 := i3.trans hc.2.2.1
    have j4 := i4.trans hc.2.2.2
    simp only [List.foldl_cons, List.flatMap_cons]
    rw [chain_append]
    refine ⟨?_, j2, j3, j4, fun b hb => ?_, fun b hb => ?_⟩
    · rw [j1, i5 b0 hnd.1, htab1, set_bucket_same]
    · rw [List.mem_cons, not_or] at hb
      rw [i5 b hb.2, htab1]
      exact set_bucket_other _ _ _ hb.1
    · by_cases hbb : b = b0
      · subst hbb
        refine ⟨(s, k, r), ?_⟩
        rw [i5 b hnd.1, htab1, set_bucket_same]
      · have hbr : b ∈ rest := by
          rcases List.mem_cons.1 hb with h | h
          · exact absurd h hbb
          · exact h
        obtain ⟨c1, hc1⟩ := i6 b hbr
        refine ⟨c1, ?_⟩
        rw [hc1, htab1, set_bucket_other _ _ _ hbb]

theorem pass_eq_chain (env : Env) (nr : Bool) (sched : Nat → Outcome) (s : State) (k : Nat) :
    registry env (disable_all_pass env nr sched s k).1 =
      (disable_all_chain env nr sched (registry env s) (s, k, false)).1 ∧
    (disable_all_pass env nr sched s k).1.mem =
      (disable_all_chain env nr sched (registry env s) (s, k, false)).2.1.mem ∧
    (disable_all_pass env nr sched s k).1.trace =
      (disable_all_chain env nr sched (registry env s) (s, k, false)).2.1.trace ∧
    (disable_all_pass env nr sched s k).2 =
      (disable_all_chain env nr sched (registry env s) (s, k, false)).2.2 ∧
    (∀ b, b < HASH_SIZE env → ∃ c1 : State × Nat × Bool,
      (disable_all_pass env nr sched s k).1.all_hijack_targets b =
        (disable_all_chain env nr sched (s.all_hijack_targets b) c1).1) := by
  have h := disable_all_fold_spec env nr sched (List.range (HASH_SIZE env))
    (List.nodup_range _) (s, k, false)
  exact ⟨h.1, h.2.1, h.2.2.1, h.2.2.2.1, fun b hb => h.2.2.2.2.2 b (List.mem_range.2 hb)⟩

theorem chain_single_mem (env : Env) (nr : Bool) (sched : Nat → Outcome) (sa : sym_hook)
    (s : State) (k : Nat) (r : Bool) :
    (disable_all_chain env nr sched [sa] (s, k, r)).2.1.mem =
      if sa.enabled = true then (stop_machine env (sched k) s sa.target sa.target_code).2.mem
      else s.mem := by
  rw [chain_single]
  by_cases he : sa.enabled = true
  · rw [if_pos he, if_pos he]
    by_cases hr : (stop_machine env (sched k) s sa.target sa.target_code).1 ≠ 0
    · rw [if_pos hr]
    · rw [if_neg hr]
      by_cases hn : nr = true
      · rw [if_pos hn]; rfl
      · rw [if_neg hn]
  · rw [if_neg he, if_neg he]
    by_cases hn : nr = true
    · rw [if_pos hn]; rfl
    · rw [if_neg hn]

theorem stop_machine_mem_outside_or (env : Env) (o : Outcome) (s : State) (dest : Nat)
    (source : List Nat) (hw : WriterContained env ∨ o.ok) (a : Nat)
    (ha : a < dest ∨ dest + env.HIJACK_SIZE ≤ a) :
    (stop_machine env o s dest source).2.mem a = s.mem a := by
  rcases hw with hw | hok
  · exact stop_machine_mem_outside env o s dest source hw a ha
  · rw [stop_machine_ok env o s dest source hok]
    apply writeBytes_outside
    have : (source.take env.HIJACK_SIZE).length ≤ env.HIJACK_SIZE := by
      rw [List.length_take]
      exact Nat.min_le_left _ _
    omega

theorem chain_frame (env : Env) (nr : Bool) (sched : Nat → Outcome)
    (hw : WriterContained env ∨ ∀ i, (sched i).ok) (l : List sym_hook) :
    ∀ (c : State × Nat × Bool) (a : Nat),
      (∀ y ∈ l, y.enabled = true → a < y.target ∨ y.target + env.HIJACK_SIZE ≤ a) →
      (disable_all_chain env nr sched l c).2.1.mem a = c.1.mem a := by
  induction l with
  | nil => intro c a _; rfl
  | cons sa rest ih =>
    rintro ⟨s, k, r⟩ a h
    rw [chain_cons]
    simp only
    rw [ih _ a (fun y hy he => h y (List.mem_cons_of_mem _ hy) he), chain_single_mem]
    by_cases he : sa.enabled = true
    · rw [if_pos he]
      exact stop_machine_mem_outside_or env _ _ _ _ (hw.imp id (fun h => h k)) a
        (h sa (List.mem_cons_self _ _) he)
    · rw [if_neg he]

theorem chain_frame_bytes (env : Env) (nr : Bool) (sched : Nat → Outcome)
    (hw : WriterContained env ∨ ∀ i, (sched i).ok) (l : List sym_hook) (c : State × Nat × Bool) (a n : Nat)
    (h : ∀ y ∈ l, y.enabled = true → apart a n y.target env.HIJACK_SIZE) :
    readBytes (disable_all_chain env nr sched l c).2.1.mem a n = readBytes c.1.mem a n := by
  apply readBytes_congr
  intro i hi
  apply chain_frame env nr sched hw l c
  intro y hy he
  have := h y hy he
  unfold apart at this
  omega

theorem registry_props {env : Env} {s : State} (h : WF env s) {x : sym_hook}
    (hx : x ∈ registry env s) :
    x.target_code.length = env.HIJACK_SIZE ∧ check_function_length_enough env x.target = true := by
  obtain ⟨b, _, hb⟩ := mem_registry.1 hx
  exact ⟨((h b).1 x hb).2.1, ((h b).1 x hb).2.2.1⟩

theorem registry_pairwise_apart {env : Env} {s : State} (h : WF env s) (hno : NoOverlap env) :
    (registry env s).Pairwise
      (fun x y => apart x.target env.HIJACK_SIZE y.target env.HIJACK_SIZE) := by
  have hnd := registry_targets_nodup h
  unfold List.Nodup at hnd
  rw [List.pairwise_map] at hnd
  exact hnd.imp_of_mem (fun {x y} hx hy hne =>
    hno x.target y.target (registry_props h hx).2 (registry_props h hy).2 hne)

theorem registry_target_inj {env : Env} {s : State} (h : WF env s) {x y : sym_hook}
    (hx : x ∈ registry env s) (hy : y ∈ registry env s) (ht : x.target = y.target) : x = y :=
  List.inj_on_of_nodup_map (registry_targets_nodup h) hx hy ht

theorem apart_symm {a n b m : Nat} (h : apart a n b m) : apart b m a n := by
  unfold apart at *
  omega

theorem env0_checked (t : Nat) (h : check_function_length_enough env0 t = true) :
    t = 100 ∨ t = 300 := by
  by_cases h1 : t = 100
  · exact Or.inl h1
  by_cases h3 : t = 300
  · exact Or.inr h3
  exfalso
  by_cases h2 : t = 200
  · subst h2
    revert h
    decide
  by_cases h4 : t = 304
  · subst h4
    revert h
    decide
  simp [check_function_length_enough, env0, h1, h2, h3, h4] at h

theorem env0_noOverlap : NoOverlap env0 := by
  intro t u ht hu hne
  rcases env0_checked t ht with rfl | rfl <;> rcases env0_checked u hu with rfl | rfl
  · exact absurd rfl hne
  · decide
  · decide
  · exact absurd rfl hne

theorem mem_registry_prepare {env : Env} {s : State} (kmalloc_ok : Bool)
    (target hook_dest space : Nat) {x : sym_hook}
    (hx : x ∈ registry env (hijack_target_prepare env kmalloc_ok s target hook_dest space).2) :
    x = new_sym_hook env s.mem target hook_dest space ∨ x ∈ registry env s := by
  rcases prepare_cases env kmalloc_ok s target hook_dest space with ⟨_, _, _, _, hp⟩ | ⟨_, htab⟩
  · rw [hp] at hx
    have := (hash_for_each_hash_add env s.all_hijack_targets
      (new_sym_hook env s.mem target hook_dest space)).mem_iff.1 hx
    exact List.mem_cons.1 this
  · right
    unfold registry at hx ⊢
    rw [htab] at hx
    exact hx

theorem chain_modify_mem (target : Nat) (f : sym_hook → sym_hook) (c : List sym_hook)
    (hnd : (c.map sym_hook.target).Nodup) {x : sym_hook}
    (hx : x ∈ chain_modify target f c) :
    (x ∈ c ∧ x.target ≠ target) ∨ ∃ y ∈ c, y.target = target ∧ x = f y := by
  induction c with
  | nil => simp [chain_modify] at hx
  | cons a rest ih =>
    rw [List.map_cons, List.nodup_cons] at hnd
    unfold chain_modify at hx
    by_cases ha : a.target = target
    · rw [if_pos ha] at hx
      rcases List.mem_cons.1 hx with h | h
      · exact Or.inr ⟨a, List.mem_cons_self _ _, ha, h⟩
      · left
        refine ⟨List.mem_cons_of_mem _ h, fun hxt => hnd.1 ?_⟩
        rw [ha, ← hxt]
        exact List.mem_map_of_mem _ h
    · rw [if_neg ha] at hx
      rcases List.mem_cons.1 hx with h | h
      · left
        rw [h]
        exact ⟨List.mem_cons_self _ _, ha⟩
      · rcases ih hnd.2 h with ⟨h1, h2⟩ | ⟨y, hy, hyt, hxy⟩
        · exact Or.inl ⟨List.mem_cons_of_mem _ h1, h2⟩
        · exact Or.inr ⟨y, List.mem_cons_of_mem _ hy, hyt, hxy⟩

theorem mem_registry_set_enabled {env : Env} {s : State} (h : WF env s) (target : Nat)
    (v : Bool) {x : sym_hook} (hx : x ∈ registry env (set_enabled env s target v)) :
    (x ∈ registry env s ∧ x.target ≠ target) ∨
    ∃ y ∈ registry env s, y.target = target ∧ x = { y with enabled := v } := by
  obtain ⟨b, hb, hxb⟩ := mem_registry.1 hx
  by_cases hbt : b = bucket_of env target
  · subst hbt
    have hxb2 : x ∈ chain_modify target (fun x => { x with enabled := v })
        (s.all_hijack_targets (bucket_of env target)) := by
      simpa [set_enabled, set_bucket] using hxb
    rcases chain_modify_mem target _ _ (h _).2 hxb2 with ⟨h1, h2⟩ | ⟨y, hy, hyt, hxy⟩
    · exact Or.inl ⟨mem_registry.2 ⟨_, hb, h1⟩, h2⟩
    · exact Or.inr ⟨y, mem_registry.2 ⟨_, hb, hy⟩, hyt, hxy⟩
  · have hxb2 : x ∈ s.all_hijack_targets b := by
      simpa [set_enabled, set_bucket, hbt] using hxb
    left
    refine ⟨mem_registry.2 ⟨_, hb, hxb2⟩, fun hxt => hbt ?_⟩
    rw [← hxt]
    exact ((h b).1 x hxb2).1.symm

theorem mem_registry_remove {env : Env} (need_remove : Bool) (ret : Int) (s : State)
    (sa : sym_hook) (target : Nat) {x : sym_hook}
    (hx : x ∈ registry env (remove_if_needed env need_remove ret s sa target)) :
    x ∈ registry env s := by
  unfold remove_if_needed at hx
  by_cases hc : need_remove = true ∧ ret = 0
  · rw [if_pos hc] at hx
    obtain ⟨b, hb, hxb⟩ := mem_registry.1 hx
    by_cases hbt : b = bucket_of env target
    · subst hbt
      have hxb2 : x ∈ chain_del target (s.all_hijack_targets (bucket_of env target)) := by
        simpa [set_bucket, State.log] using hxb
      exact mem_registry.2 ⟨_, hb, (chain_del_sublist target _).subset hxb2⟩
    · have hxb2 : x ∈ s.all_hijack_targets b := by
        simpa [set_bucket, State.log, hbt] using hxb
      exact mem_registry.2 ⟨_, hb, hxb2⟩
  · rw [if_neg hc] at hx
    exact hx

theorem mem_registry_of_find {env : Env} {s : State} {target : Nat} {sa : sym_hook}
    (hf : hash_find target (s.all_hijack_targets (bucket_of env target)) = some sa) :
    sa ∈ registry env s :=
  mem_registry.2 ⟨_, bucket_of_lt env target, (hash_find_some hf).1⟩

theorem installed_log {env : Env} {s : State} (hin : Installed env s) (e : Event) :
    Installed env (s.log e) := hin

theorem installed_prepare {env : Env} {s : State} (hin : Installed env s) (kmalloc_ok : Bool)
    (target hook_dest space : Nat)
    (hc : TrampClear env space (template_return_addr env target)) :
    Installed env (hijack_target_prepare env kmalloc_ok s target hook_dest space).2 := by
  intro x hx
  rw [prepare_mem]
  rcases mem_registry_prepare kmalloc_ok target hook_dest space hx with h | h
  · rw [h]
    exact ⟨hc, fun he => Bool.noConfusion he⟩
  · exact hin x h

theorem tramp_bytes {env : Env} {s : State} (hwf : WF env s) (hin : Installed env s)
    {sa x : sym_hook} (hsa : sa ∈ registry env s) (hx : x ∈ registry env s) :
    readBytes (enable_pre env s sa).mem x.target env.HIJACK_SIZE =
      readBytes s.mem x.target env.HIJACK_SIZE := by
  apply enable_pre_mem_apart
  rcases (hin sa hsa).1 with h | h
  · exact Or.inl h
  · exact Or.inr (h x.target (registry_props hwf hx).2)

theorem installed_enable {env : Env} {s : State} (hno : NoOverlap env) (hw : WriterAtomic env)
    (hwf : WF env s) (hin : Installed env s) (o : Outcome) (target : Nat) :
    Installed env (hijack_target_enable env o s target).2 := by
  cases hf : hash_find target (s.all_hijack_targets (bucket_of env target)) with
  | none =>
    rw [enable_not_found env o s target hf]
    exact hin
  | some sa =>
    have hsa := mem_registry_of_find hf
    have hst := (hash_find_some hf).2
    cases he : sa.enabled with
    | true =>
      rw [enable_enabled env o s target sa hf he]
      exact hin
    | false =>
      rw [enable_disabled env o s target sa hf he]
      have htab : (stop_machine env o (enable_pre env s sa) target
          (source_code env sa.hook_dest)).2.all_hijack_targets = s.all_hijack_targets := by
        rw [stop_machine_table, enable_pre_table]
      have hreg : registry env (stop_machine env o (enable_pre env s sa) target
          (source_code env sa.hook_dest)).2 = registry env s := by
        unfold registry
        rw [htab]
      by_cases h0 : (stop_machine env o (enable_pre env s sa) target
          (source_code env sa.hook_dest)).1 = 0
      · rw [if_pos h0]
        have hok : o.ok := (stop_machine_zero_iff _ _ _ _ _).1 h0
        have hmem : (set_enabled env (stop_machine env o (enable_pre env s sa) target
            (source_code env sa.hook_dest)).2 target true).mem =
            writeBytes (enable_pre env s sa).mem target
              ((source_code env sa.hook_dest).take env.HIJACK_SIZE) := by
          rw [stop_machine_ok env o _ _ _ hok]
          rfl
        have hlen : ((source_code env sa.hook_dest).take env.HIJACK_SIZE).length =
            env.HIJACK_SIZE := by
          rw [List.length_take, source_code_length]
          exact Nat.min_self _
        intro x hx
        show _ ∧ (_ → readBytes (set_enabled env (stop_machine env o (enable_pre env s sa) target
            (source_code env sa.hook_dest)).2 target true).mem x.target env.HIJACK_SIZE = _)
        rw [hmem]
        rcases mem_registry_set_enabled (WF_of_table_eq hwf htab) target true hx with
          ⟨h1, h2⟩ | ⟨y, hy, hyt, hxy⟩
        · rw [hreg] at h1
          refine ⟨(hin x h1).1, fun hxe => ?_⟩
          rw [readBytes_writeBytes_apart, tramp_bytes hwf hin hsa h1]
          · exact (hin x h1).2 hxe
          · rw [hlen]
            exact hno x.target target (registry_props hwf h1).2
              (hst ▸ (registry_props hwf hsa).2) h2
        · rw [hreg] at hy
          have hys : y = sa := registry_target_inj hwf hy hsa (hyt.trans hst.symm)
          subst hys
          rw [hxy]
          refine ⟨(hin y hy).1, fun _ => ?_⟩
          show readBytes _ y.target env.HIJACK_SIZE = source_code env y.hook_dest
          rw [hyt, readBytes_writeBytes_len _ _ _ _ hlen,
            List.take_of_length_le (le_of_eq (source_code_length env y.hook_dest))]
      · rw [if_neg h0]
        have hfail : ¬ o.ok := fun hok => h0 ((stop_machine_zero_iff _ _ _ _ _).2 hok)
        intro x hx
        rw [hreg] at hx
        rw [stop_machine_fail_mem env o _ _ _ hfail (Or.inr (Or.inr hw)),
          tramp_bytes hwf hin hsa hx]
        exact hin x hx

theorem installed_disable {env : Env} {s : State} (hno : NoOverlap env) (hw : WriterAtomic env)
    (hwf : WF env s) (hin : Installed env s) (o : Outcome) (target : Nat)
    (need_remove : Bool) :
    Installed env (hijack_target_disable env o s target need_remove).2 := by
  cases hf : hash_find target (s.all_hijack_targets (bucket_of env target)) with
  | none =>
    rw [disable_not_found env o s target need_remove hf]
    exact hin
  | some sa =>
    have hsa := mem_registry_of_find hf
    have hst := (hash_find_some hf).2
    cases he : sa.enabled with
    | false =>
      rw [disable_disabled env o s target need_remove sa hf he]
      intro x hx
      have hx1 := mem_registry_remove need_remove 0 _ sa target hx
      show _ ∧ (_ → readBytes (remove_if_needed env need_remove 0
        (s.log (Event.loginfo (LogMsg.has_been_disabled target))) sa target).mem
          x.target env.HIJACK_SIZE = _)
      rw [remove_if_needed_mem]
      exact hin x hx1
    | true =>
      rw [disable_enabled env o s target need_remove sa hf he]
      have htab : (stop_machine env o s target sa.target_code).2.all_hijack_targets =
          s.all_hijack_targets := stop_machine_table _ _ _ _ _
      have hreg : registry env (stop_machine env o s target sa.target_code).2 =
          registry env s := by
        unfold registry
        rw [htab]
      by_cases h0 : (stop_machine env o s target sa.target_code).1 = 0
      · rw [if_pos h0]
        have hok : o.ok := (stop_machine_zero_iff _ _ _ _ _).1 h0
        have hmem : (set_enabled env (stop_machine env o s target sa.target_code).2
            target false).mem =
            writeBytes s.mem target (sa.target_code.take env.HIJACK_SIZE) := by
          rw [stop_machine_ok env o _ _ _ hok]
          rfl
        have hlen : (sa.target_code.take env.HIJACK_SIZE).length = env.HIJACK_SIZE := by
          rw [List.length_take, (registry_props hwf hsa).1]
          exact Nat.min_self _
        intro x hx
        have hx1 := mem_registry_remove need_remove 0 _ _ target hx
        show _ ∧ (_ → readBytes (remove_if_needed env need_remove 0
          (set_enabled env (stop_machine env o s target sa.target_code).2 target false)
          { sa with enabled := false } target).mem x.target env.HIJACK_SIZE = _)
        rw [remove_if_needed_mem, hmem]
        rcases mem_registry_set_enabled (WF_of_table_eq hwf htab) target false hx1 with
          ⟨h1, h2⟩ | ⟨y, hy, hyt, hxy⟩
        · rw [hreg] at h1
          refine ⟨(hin x h1).1, fun hxe => ?_⟩
          rw [readBytes_writeBytes_apart]
          · exact (hin x h1).2 hxe
          · rw [hlen]
            exact hno x.target target (registry_props hwf h1).2
              (hst ▸ (registry_props hwf hsa).2) h2
        · rw [hreg] at hy
          rw [hxy]
          exact ⟨(hin y hy).1, fun hxe => Bool.noConfusion hxe⟩
      · rw [if_neg h0]
        have hfail : ¬ o.ok := fun hok => h0 ((stop_machine_zero_iff _ _ _ _ _).2 hok)
        intro x hx
        rw [hreg] at hx
        show _ ∧ (_ → readBytes (stop_machine env o s target sa.target_code).2.mem
          x.target env.HIJACK_SIZE = _)
        rw [stop_machine_fail_mem env o _ _ _ hfail (Or.inr (Or.inr hw))]
        exact hin x hx

theorem chain_kept_enabled (env : Env) (nr : Bool) (sched : Nat → Outcome)
    (hw : WriterAtomic env) (l : List sym_hook) :
    l.Pairwise (fun x y => apart x.target env.HIJACK_SIZE y.target env.HIJACK_SIZE) →
    ∀ (c : State × Nat × Bool) (x : sym_hook),
      x ∈ (disable_all_chain env nr sched l c).1 → x.enabled = true →
      x ∈ l ∧
      readBytes (disable_all_chain env nr sched l c).2.1.mem x.target env.HIJACK_SIZE =
        readBytes c.1.mem x.target env.HIJACK_SIZE := by
  have hwc := writerAtomic_contained hw
  induction l with
  | nil =>
    intro _ c x hx
    simp [disable_all_chain] at hx
  | cons sa rest ih =>
    rintro hpw ⟨s, k, r⟩ x hx hxe
    rw [List.pairwise_cons] at hpw
    rw [chain_cons] at hx ⊢
    rcases List.mem_append.1 hx with h | h
    · have hxs : x = sa ∧ ¬ (sched k).ok := by
        rw [chain_single] at h
        by_cases he : sa.enabled = true
        · rw [if_pos he] at h
          by_cases hr : (stop_machine env (sched k) s sa.target sa.target_code).1 ≠ 0
          · rw [if_pos hr] at h
            exact ⟨List.mem_singleton.1 h,
              fun hok => hr ((stop_machine_zero_iff _ _ _ _ _).2 hok)⟩
          · rw [if_neg hr] at h
            by_cases hn : nr = true
            · rw [if_pos hn] at h
              simp at h
            · rw [if_neg hn] at h
              rw [List.mem_singleton.1 h] at hxe
              exact Bool.noConfusion hxe
        · rw [if_neg he] at h
          by_cases hn : nr = true
          · rw [if_pos hn] at h
            simp at h
          · rw [if_neg hn] at h
            rw [List.mem_singleton.1 h] at hxe
            exact absurd hxe he
      obtain ⟨hxs, hfail⟩ := hxs
      subst hxs
      refine ⟨List.mem_cons_self _ _, ?_⟩
      simp only
      rw [chain_frame_bytes env nr sched (Or.inl hwc) rest _ x.target env.HIJACK_SIZE
        (fun y hy _ => hpw.1 y hy), chain_single_mem, if_pos hxe,
        stop_machine_fail_mem env _ _ _ _ hfail (Or.inr (Or.inr hw))]
    · obtain ⟨hxr, hb⟩ := ih hpw.2 (disable_all_chain env nr sched [sa] (s, k, r)).2 x h hxe
      refine ⟨List.mem_cons_of_mem _ hxr, ?_⟩
      simp only
      rw [hb]
      exact chain_frame_bytes env nr sched (Or.inl hwc) [sa] (s, k, r) x.target env.HIJACK_SIZE
        (fun y hy _ => by
          rw [List.mem_singleton.1 hy]
          exact apart_symm (hpw.1 x hxr))

theorem chainSub_mem_space {c1 c : List sym_hook} (h : ChainSub c1 c) {x : sym_hook}
    (hx : x ∈ c1) :
    ∃ y ∈ c, y.hook_template_code_space = x.hook_template_code_space ∧
      y.template_return_addr = x.template_return_addr := by
  have h1 : forget_enabled x ∈ c.map forget_enabled := h.subset (List.mem_map_of_mem _ hx)
  obtain ⟨y, hy, hxy⟩ := List.mem_map.1 h1
  have h2 : (forget_enabled y).hook_template_code_space =
      (forget_enabled x).hook_template_code_space := congrArg _ hxy
  have h3 : (forget_enabled y).template_return_addr =
      (forget_enabled x).template_return_addr := congrArg _ hxy
  exact ⟨y, hy, h2, h3⟩

theorem installed_pass {env : Env} {s : State} (hno : NoOverlap env) (hw : WriterAtomic env)
    (hwf : WF env s) (hin : Installed env s) (nr : Bool) (sched : Nat → Outcome) (k : Nat) :
    Installed env (disable_all_pass env nr sched s k).1 := by
  obtain ⟨h1, h2, _, _, _⟩ := pass_eq_chain env nr sched s k
  intro x hx
  rw [h1] at hx
  rw [h2]
  constructor
  · obtain ⟨y, hy, hsp, hra⟩ := chainSub_mem_space
      (disable_all_chain_spec env nr sched (registry env s) (s, k, false)).2 hx
    rw [← hsp, ← hra]
    exact (hin y hy).1
  · intro hxe
    obtain ⟨hxs, hb⟩ := chain_kept_enabled env nr sched hw (registry env s)
      (registry_pairwise_apart hwf hno) (s, k, false) x hx hxe
    rw [hb]
    exact (hin x hxs).2 hxe

theorem installed_disable_all {env : Env} (hno : NoOverlap env) (hw : WriterAtomic env)
    (need_remove : Bool) (sched : Nat → Outcome) (fuel : Nat) :
    ∀ (k : Nat) (s s1 : State), WF env s → Installed env s →
      hijack_target_disable_all env need_remove sched fuel k s = some s1 →
      Installed env s1 := by
  induction fuel with
  | zero =>
    intro k s s1 _ _ h
    simp [hijack_target_disable_all] at h
  | succ n ih =>
    intro k s s1 hwf hin h
    unfold hijack_target_disable_all at h
    have hp := disable_all_pass_WF need_remove sched hwf k
    have hi := installed_pass hno hw hwf hin need_remove sched k
    by_cases hr : (disable_all_pass env need_remove sched s k).2.2 = true
    · rw [if_pos hr] at h
      have hlog : WF env ((disable_all_pass env need_remove sched s k).1.log
          (Event.msleep 1000)) := WF_of_table_eq hp rfl
      exact ih _ _ _ hlog (installed_log hi _) h
    · rw [if_neg hr] at h
      rw [← Option.some.inj h]
      exact installed_log hi _

theorem ReachableClear.reachable {env : Env} {s : State} (h : ReachableClear env s) :
    Reachable env s := by
  induction h with
  | init m => exact Reachable.init m
  | prepare kmalloc_ok target hook_dest space _ _ ih =>
    exact Reachable.prepare kmalloc_ok target hook_dest space ih
  | enable o target _ ih => exact Reachable.enable o target ih
  | disable o target need_remove _ ih => exact Reachable.disable o target need_remove ih
  | disable_all need_remove sched fuel _ hrun ih =>
    exact Reachable.disable_all need_remove sched fuel ih hrun

theorem ReachableClear.installed {env : Env} (hno : NoOverlap env) (hw : WriterAtomic env)
    {s : State} (h : ReachableClear env s) : Installed env s := by
  induction h with
  | init m =>
    intro x hx
    simp [registry, hash_for_each, empty_table] at hx
  | prepare kmalloc_ok target hook_dest space _ hc ih =>
    exact installed_prepare ih kmalloc_ok target hook_dest space hc
  | enable o target hs ih => exact installed_enable hno hw hs.reachable.wf ih o target
  | disable o target need_remove hs ih =>
    exact installed_disable hno hw hs.reachable.wf ih o target need_remove
  | disable_all need_remove sched fuel hs hrun ih =>
    exact installed_disable_all hno hw need_remove sched fuel 0 _ _ hs.reachable.wf ih hrun

theorem env0_trampClear_500 : TrampClear env0 500 (template_return_addr env0 300) := by
  right
  intro u hu
  rcases env0_checked u hu with rfl | rfl <;> decide

/-- C2, amended: for a target whose descriptor `sa` is found and not yet enabled, a
successful patch makes `hijack_target_enable` return `0`, the descriptor found afterwards
is `sa` with `enabled = true`, and the `HIJACK_SIZE` bytes at the target are the local
buffer `source_code`: `HIJACK_SIZE` zero bytes with the jump to `sa.hook_dest` stored
over them; for every outcome of the patch attempt the flag of the descriptor is true
after the call only if the call returned `0` and those bytes stand at the target. And in
every state reached from the empty registry by sequential calls of prepare, enable,
disable and disable_all in which each trampoline region passed to prepare stays clear of
the patched bytes of every eligible target, with routines that do not overlap and a
writer that writes nothing when it fails, the patched bytes stand at the target of every
registered descriptor whose `enabled` flag is true. -/
theorem C2_enable_installs_jump (env : Env) :
    (∀ (o : Outcome) (s : State) (target : Nat) (sa : sym_hook),
      hash_find target (s.all_hijack_targets (bucket_of env target)) = some sa →
      sa.enabled = false →
      (o.ok →
        (hijack_target_enable env o s target).1 = 0 ∧
        hash_find target
            ((hijack_target_enable env o s target).2.all_hijack_targets
              (bucket_of env target)) =
          some { sa with enabled := true } ∧
        readBytes (hijack_target_enable env o s target).2.mem target env.HIJACK_SIZE =
          source_code env sa.hook_dest) ∧
      source_code env sa.hook_dest =
        fill_long_jmp env (List.replicate env.HIJACK_SIZE 0) sa.hook_dest ∧
      (source_code env sa.hook_dest).length = env.HIJACK_SIZE ∧
      (∃ sa1, hash_find target
            ((hijack_target_enable env o s target).2.all_hijack_targets
              (bucket_of env target)) =
          some sa1 ∧
        (sa1.enabled = true →
          (hijack_target_enable env o s target).1 = 0 ∧
          readBytes (hijack_target_enable env o s target).2.mem target env.HIJACK_SIZE =
            source_code env sa.hook_dest))) ∧
    (NoOverlap env → WriterAtomic env → ∀ s : State, ReachableClear env s →
      ∀ sa ∈ registry env s, sa.enabled = true →
        readBytes s.mem sa.target env.HIJACK_SIZE = source_code env sa.hook_dest) :=
  ⟨fun o s target sa hf he => enable_installs_jump env o s target sa hf he,
   fun hno hw _ hs sa hsa he => (ReachableClear.installed hno hw hs sa hsa).2 he⟩

/-- C2, amended, evaluated: enabling the prepared target `100` of `s1` returns `0` and
puts the jump to `900`, padded with zero bytes, at the target; and in `s2c`, reached by
preparing and enabling `100` and then `300` with the trampoline region `500`, both
descriptors are enabled and the jump to `900` still stands at `100`. -/
theorem C2_enable_installs_jump_witness :
    hash_find 100 (s1.all_hijack_targets (bucket_of env0 100)) = some sa100 ∧
    sa100.enabled = false ∧ ok0.ok ∧
    (hijack_target_enable env0 ok0 s1 100).1 = 0 ∧
    readBytes (hijack_target_enable env0 ok0 s1 100).2.mem 100 4 = [233, 132, 0, 0] ∧
    NoOverlap env0 ∧ WriterAtomic env0 ∧ ReachableClear env0 s2c ∧
    registry env0 s2c =
      [{ target := 300, target_code := [6, 0, 1, 2], hook_dest := 901,
         hook_template_code_space := 500, template_return_addr := 296, enabled := true },
       { sa100 with enabled := true }] ∧
    readBytes s2c.mem 100 env0.HIJACK_SIZE = source_code env0 900 ∧
    source_code env0 900 = [233, 132, 0, 0] :=
  ⟨by decide, rfl, by decide,
   (((C2_enable_installs_jump env0).1 ok0 s1 100 sa100 (by decide) rfl).1 (by decide)).1,
   (((C2_enable_installs_jump env0).1 ok0 s1 100 sa100 (by decide) rfl).1 (by decide)).2.2,
   env0_noOverlap, fun _ _ _ => rfl,
   ReachableClear.enable ok0 300 (ReachableClear.prepare true 300 901 500
     (ReachableClear.enable ok0 100 (ReachableClear.prepare true 100 900 0
       (ReachableClear.init mem0) (Or.inl rfl))) env0_trampClear_500),
   by decide,
   (C2_enable_installs_jump env0).2 env0_noOverlap (fun _ _ _ => rfl) s2c
     (ReachableClear.enable ok0 300 (ReachableClear.prepare true 300 901 500
       (ReachableClear.enable ok0 100 (ReachableClear.prepare true 100 900 0
         (ReachableClear.init mem0) (Or.inl rfl))) env0_trampClear_500))
     { sa100 with enabled := true } (by decide) rfl,
   by decide⟩

/-- C2, as stated, fails in its second half. From the empty registry the sequential calls
prepare(100, 900, 0), enable(100), prepare(300, 901, 98), enable(300) all return `0`; the
last one fills the trampoline region at `98`, which covers the bytes at `100`, and the
descriptor of `100` keeps `enabled = true` while the bytes at `100` are `[1, 2, 233, 40]`,
not the patched bytes `[233, 132, 0, 0]`. And in `sdupE`, where two callers of prepare
passed the duplicate check before either inserted, the descriptor with hook `900` has
`enabled = true` while the bytes at `100` are the jump to `901`. -/
theorem C2_counterexample :
    Reachable env0 s2t ∧
    (hijack_target_prepare env0 true s2 300 901 98).1 = 0 ∧
    (hijack_target_enable env0 ok0 (hijack_target_prepare env0 true s2 300 901 98).2 300).1 =
      0 ∧
    { sa100 with enabled := true } ∈ registry env0 s2t ∧
    readBytes s2t.mem 100 env0.HIJACK_SIZE = [1, 2, 233, 40] ∧
    source_code env0 900 = [233, 132, 0, 0] ∧
    ¬ (readBytes s2t.mem 100 env0.HIJACK_SIZE = source_code env0 900) ∧
    { sa100 with enabled := true } ∈ registry env0 sdupE ∧
    readBytes sdupE.mem 100 env0.HIJACK_SIZE = [233, 133, 0, 0] ∧
    ¬ (readBytes sdupE.mem 100 env0.HIJACK_SIZE = source_code env0 900) :=
  ⟨Reachable.enable ok0 300 (Reachable.prepare true 300 901 98
     (Reachable.enable ok0 100 (Reachable.prepare true 100 900 0 (Reachable.init mem0)))),
   by decide, by decide, by decide, by decide, by decide, by decide, by decide, by decide,
   by decide⟩

end Hijack
